import Mathlib

/-!
# Mission scripting bridge of naev (`src/misn_lua.c`)

A shallow embedding of the mission variable stack (`var_stack`, `var_nstack`
with `var_add`, `var_push`, `var_peek`, `var_pop`, `var_checkflag`,
`var_save`, `var_load`, `var_cleanup`), of the player mission table
(`player_missions`, `cur_mission` with `misn_accept`, `misn_finish`,
`misn_run`, `misn_setMarker`), of the hooks (`hook_generic`, `hook_pilot`),
of the library tables with their loaders, and of `pilot_addFleet`; with the
header of the shaders (`gl_program_vert_frag` of `src/opengl_shader.c`) and
`logprintf` of `src/log.c`.

Conventions of the embedding.

* A `String` in the memory of the program (a field of `misn_var`, `Mission`
  or `Fleet`, an attribute or text of the saved document) stands for a C
  string. A string of the interpreter (`LuaValue.string`) may hold a `NUL`
  anywhere; the code reads it through `lua_tostring` as a C string, which is
  its characters before the first `NUL` (`c_str`).
* A `double` is represented by the rational number it denotes.
* A function whose C execution reads memory that holds no initialised object
  (or is undefined for another reason) returns `none`; `some r` is a defined
  execution with result `r`.
* A script call `f(a1, a2, ...)` of a bound C function is the function applied
  to the list of its arguments; `NLUA_MIN_ARGS(n)` (of `nluadef.h`, a usage
  error that returns no value when fewer than `n` arguments are passed) is the
  case of a list that is too short.
* The Lua C API, `atoi` and the printf-style formatting are libraries outside
  the sources; they are rendered after their reference manuals. The headers
  `mission.h` and `xml.h` of the repository are absent; what is used of them
  is modelled from the specification and says so.
* Functions of other files of the repository (`mission_cleanup`, `hook_add`,
  `pilot_create`, the random source, ...) are parameters; a function that
  calls them returns the list of the calls it makes (`Call`), in order.
-/

set_option autoImplicit false

namespace Naev

/-! ## Values of the script interpreter -/

/-- A value on the Lua stack. `other` stands for the kinds that are neither
nil, number, boolean nor string (table, function, userdata, thread). -/
inductive LuaValue where
  | nil
  | number (n : ℚ)
  | boolean (b : Bool)
  | string (s : String)
  | other
  deriving DecidableEq, Repr

/-- The two coercions of the interpreter that the C API applies silently:
`str2number s` is the number a string converts to, if it converts
(`lua_isnumber`, `lua_tonumber` on a string), and `number2str n` is the string
a number converts to (`lua_tostring` on a number). The interpreter is not part
of the sources, so both are parameters. -/
structure LuaConv where
  str2number : String → Option ℚ
  number2str : ℚ → String

/-- `lua_isnil(L,idx)`. -/
def lua_isnil : LuaValue → Bool
  | .nil => true
  | _ => false

/-- `lua_isboolean(L,idx)`. -/
def lua_isboolean : LuaValue → Bool
  | .boolean _ => true
  | _ => false

/-- `lua_isnumber(L,idx)`: a number, or a string convertible to a number. -/
def lua_isnumber (cv : LuaConv) : LuaValue → Bool
  | .number _ => true
  | .string s => (cv.str2number s).isSome
  | _ => false

/-- `lua_isstring(L,idx)`: a string, or a number (always convertible). -/
def lua_isstring : LuaValue → Bool
  | .string _ => true
  | .number _ => true
  | _ => false

/-- `lua_tonumber(L,idx)`; 0 when the value does not convert. -/
def lua_tonumber (cv : LuaConv) : LuaValue → ℚ
  | .number n => n
  | .string s => (cv.str2number s).getD 0
  | _ => 0

/-- `lua_toboolean(L,idx)`: 0 for nil and false, 1 for every other value. -/
def lua_toboolean : LuaValue → Int
  | .nil => 0
  | .boolean false => 0
  | _ => 1

/-- The character that ends a string of C. -/
def NUL : Char := Char.ofNat 0

/-- The string of C that a `char*` to the characters of `s` is: the
characters before the first `NUL`. A string of the interpreter may hold a
`NUL` anywhere; `strcmp`, `strdup` and `lua_pushstring` stop at the first
one. -/
def c_str (s : String) : String := String.mk (s.toList.takeWhile (fun c => c ≠ NUL))

/-- `(char*) lua_tostring(L,idx)` on a value for which `lua_isstring` holds,
as the code reads it: a string of C. -/
def lua_tostring (cv : LuaConv) : LuaValue → String
  | .string s => c_str s
  | .number n => c_str (cv.number2str n)
  | _ => ""

/-- `lua_pushboolean(L,b)`: the boolean pushed for the C int `b`. -/
def lua_pushboolean (b : Int) : LuaValue := .boolean (decide (b ≠ 0))

/-! ## The mission variable stack -/

/-- The `type` field of a `misn_var` together with the member of the union `d`
that belongs to it (`MISN_VAR_NIL` uses no member). -/
inductive misn_var_data where
  | MISN_VAR_NIL
  | MISN_VAR_NUM (num : ℚ)
  | MISN_VAR_BOOL (b : Int)
  | MISN_VAR_STR (str : String)
  deriving DecidableEq, Repr

/-- `struct misn_var_`. -/
structure misn_var where
  name : String
  d : misn_var_data
  deriving DecidableEq, Repr

/-- The globals `var_stack` and `var_nstack`. `var_stack` lists the memory
cells `var_stack[0]`, `var_stack[1]`, ... as seen from the pointer; a cell is
`none` when it holds no initialised variable (memory in front of the
allocation, or a variable that `var_free` has released). The capacity
`var_mstack` and the `realloc` that grows it are not represented: the list is
unbounded. -/
structure VarStack where
  var_stack : List (Option misn_var)
  var_nstack : Nat
  deriving DecidableEq, Repr

/-- The state at program start: `var_stack = NULL`, `var_nstack = 0`. -/
def VarStack.init : VarStack := ⟨[], 0⟩

/-- Store `c` into cell `i` of `cells` (`i` at most the number of cells). -/
def poke (cells : List (Option misn_var)) (i : Nat) (c : Option misn_var) :
    List (Option misn_var) :=
  cells.take i ++ c :: cells.drop (i + 1)

/-- `memmove(&cells[dst], &cells[src], n * sizeof(misn_var))`. -/
def memmove (cells : List (Option misn_var)) (dst src n : Nat) :
    List (Option misn_var) :=
  cells.take dst ++ (cells.drop src).take n ++ cells.drop (dst + n)

/-- The loop `for (i=0; i<var_nstack; i++) if (strcmp(str,var_stack[i].name)==0)`
of `var_add`, `var_checkflag`, `var_peek` and `var_pop`, started at index `i`
with `n` iterations left on the cells from `i` on: `some (some j)` when the
first match is at `j`, `some none` when the loop ends without a match, `none`
when it reads a cell that holds no variable. -/
def var_scan (str : String) : List (Option misn_var) → Nat → Nat → Option (Option Nat)
  | _, 0, _ => some none
  | [], _ + 1, _ => none
  | none :: _, _ + 1, _ => none
  | some v :: cells, n + 1, i =>
      if str = v.name then some (some i) else var_scan str cells n (i + 1)

/-- `var_add`: overwrite the first variable of the same name in place, else
append at `var_stack[var_nstack]` and increment `var_nstack`. -/
def var_add (st : VarStack) (new_var : misn_var) : Option VarStack :=
  match var_scan new_var.name st.var_stack st.var_nstack 0 with
  | none => none
  | some (some i) => some { st with var_stack := poke st.var_stack i (some new_var) }
  | some none =>
      some { var_stack := poke st.var_stack st.var_nstack (some new_var),
             var_nstack := st.var_nstack + 1 }

/-- `var_checkflag`: 1 if a variable of that name exists, 0 if not. -/
def var_checkflag (st : VarStack) (str : String) : Option Int :=
  match var_scan str st.var_stack st.var_nstack 0 with
  | none => none
  | some (some _) => some 1
  | some none => some 0

/-- The `switch (var_stack[i].type)` of `var_peek`: the value pushed. -/
def var_peek_value : misn_var_data → LuaValue
  | .MISN_VAR_NIL => .nil
  | .MISN_VAR_NUM num => .number num
  | .MISN_VAR_BOOL b => lua_pushboolean b
  | .MISN_VAR_STR str => .string str

/-- `var_peek` called with the arguments `L`: the list of values it returns
to the script (none at all after a usage error). -/
def var_peek (cv : LuaConv) (st : VarStack) (L : List LuaValue) : Option (List LuaValue) :=
  match L with
  | [] => some []
  | a1 :: _ =>
    if lua_isstring a1 then
      match var_scan (lua_tostring cv a1) st.var_stack st.var_nstack 0 with
      | none => none
      | some (some i) =>
          match st.var_stack[i]? with
          | some (some v) => some [var_peek_value v.d]
          | _ => none
      | some none => some [.nil]
    else some []

/-- `var_pop` called with the arguments `L`. On a match the variable is
freed, the cells after it are moved down by one, and then the pointer
`var_stack` (not the count `var_nstack`) is decremented. -/
def var_pop (cv : LuaConv) (st : VarStack) (L : List LuaValue) : Option VarStack :=
  match L with
  | [] => some st
  | a1 :: _ =>
    if lua_isstring a1 then
      match var_scan (lua_tostring cv a1) st.var_stack st.var_nstack 0 with
      | none => none
      | some (some i) =>
          some { var_stack :=
                   none :: memmove (poke st.var_stack i none) i (i + 1) (st.var_nstack - i - 1),
                 var_nstack := st.var_nstack }
      | some none => some st
    else some st

/-- The chain `if (lua_isnil(L,2)) ... else if (lua_isnumber(L,2)) ... else if
(lua_isboolean(L,2)) ... else if (lua_isstring(L,2)) ... else` of `var_push`:
the type and data stored for the value, `none` for the last `else` (invalid
data type). -/
def var_push_data (cv : LuaConv) (a2 : LuaValue) : Option misn_var_data :=
  if lua_isnil a2 then some .MISN_VAR_NIL
  else if lua_isnumber cv a2 then some (.MISN_VAR_NUM (lua_tonumber cv a2))
  else if lua_isboolean a2 then some (.MISN_VAR_BOOL (lua_toboolean a2))
  else if lua_isstring a2 then some (.MISN_VAR_STR (lua_tostring cv a2))
  else none

/-- `var_push` called with the arguments `L`: fewer than two arguments, a
name that is no string and a value of invalid type leave the stack as it is;
otherwise the variable is handed to `var_add`. -/
def var_push (cv : LuaConv) (st : VarStack) (L : List LuaValue) : Option VarStack :=
  match L with
  | a1 :: a2 :: _ =>
    if lua_isstring a1 then
      match var_push_data cv a2 with
      | some d => var_add st ⟨lua_tostring cv a1, d⟩
      | none => some st
    else some st
  | _ => some st

/-- `var_cleanup`: free every variable, then the stack itself. -/
def var_cleanup (st : VarStack) : Option VarStack :=
  if (st.var_stack.take st.var_nstack).all Option.isSome ∧ st.var_nstack ≤ st.var_stack.length
  then some VarStack.init else none

/-! ## The saved document -/

/-- An argument passed through the `...` of a printf-style call. -/
inductive va_arg where
  | int (i : Int)
  | double (x : ℚ)
  deriving DecidableEq, Repr

/-- The decimal digits that `%d` prints for an `int`. -/
def fmt_d (i : Int) : List Char := (toString i).toList

/-- Output of a printf-style format for the directives the sources use, read
character by character; the flag tells that the character before was a `%`
that opens a directive. Ordinary characters are copied, `%%` prints a percent
sign, `%d` prints the next argument when that argument is an `int`. Every
other use of `%` (an argument of another type, a missing argument, another
directive, a `%` at the end) is undefined and gives `none`. -/
def vformat : Bool → List Char → List va_arg → Option (List Char)
  | false, [], _ => some []
  | true, [], _ => none
  | false, c :: cs, args =>
      if c = '%' then vformat true cs args else (vformat false cs args).map (c :: ·)
  | true, c :: cs, args =>
      if c = '%' then (vformat false cs args).map ('%' :: ·)
      else if c = 'd' then
        match args with
        | .int i :: args1 => (vformat false cs args1).map (fmt_d i ++ ·)
        | _ => none
      else none

/-- Modelled from the spec: a record of the persisted document as `xml.h`
presents it, a child node of `vars` with its element name, its attributes
`name` and `type` (`xmlr_attr`) and its text (`xml_get`). -/
structure xmlVar where
  elem : String
  name : String
  type : String
  text : String
  deriving DecidableEq, Repr

/-- Modelled from the spec: a child node of the parent that is handed to
`var_load`, with its element name and its children in document order. -/
structure xmlNode where
  elem : String
  children : List xmlVar
  deriving DecidableEq, Repr

/-- Modelled from the spec: the macro `xmlw_str(writer, fmt, args...)` of
`xml.h`, which writes text through a printf-style format, as its uses in
`var_save` show; the result is the text written. -/
def xmlw_str (fmt : String) (args : List va_arg) : Option String :=
  (vformat false fmt.toList args).map String.mk

/-- The body of the loop of `var_save`: the `var` element written for one
variable. -/
def var_save_var (v : misn_var) : Option xmlVar :=
  match v.d with
  | .MISN_VAR_NIL => some ⟨"var", v.name, "nil", ""⟩
  | .MISN_VAR_NUM num => (xmlw_str "%d" [.double num]).map (⟨"var", v.name, "num", ·⟩)
  | .MISN_VAR_BOOL b => (xmlw_str "%d" [.int b]).map (⟨"var", v.name, "bool", ·⟩)
  | .MISN_VAR_STR str => (xmlw_str str []).map (⟨"var", v.name, "str", ·⟩)

/-- The loop `for (i=0; i<var_nstack; i++)` of `var_save` over the cells, with
`n` iterations left. -/
def var_save_loop : List (Option misn_var) → Nat → Option (List xmlVar)
  | _, 0 => some []
  | some v :: cells, n + 1 =>
      match var_save_var v, var_save_loop cells n with
      | some x, some xs => some (x :: xs)
      | _, _ => none
  | _, _ + 1 => none

/-- `var_save`: the element `vars` written to the document. -/
def var_save (st : VarStack) : Option xmlNode :=
  (var_save_loop st.var_stack st.var_nstack).map (⟨"vars", ·⟩)

/-- C `isspace` in the "C" locale. -/
def isspace (c : Char) : Bool :=
  c = ' ' ∨ c = '\t' ∨ c = '\n' ∨ c = '\x0b' ∨ c = '\x0c' ∨ c = '\r'

/-- The digit loop of `atoi`. -/
def atoi_digits : List Char → Int → Int
  | [], acc => acc
  | c :: cs, acc => if c.isDigit then atoi_digits cs (acc * 10 + (c.toNat - 48 : Nat)) else acc

/-- C `atoi`: leading white space, an optional sign, then decimal digits up
to the first other character (the value is taken to fit an `int`). -/
def atoi (s : String) : Int :=
  match s.toList.dropWhile isspace with
  | '-' :: cs => - atoi_digits cs 0
  | '+' :: cs => atoi_digits cs 0
  | cs => atoi_digits cs 0

/-- The chain of comparisons of `var_load` on the attribute `type` (`str`)
of a node with text `text`: the type and data of the variable to add, `none`
for the last `else` (the node is skipped). The comparisons are the ones of
the source: `strcmp(str,"nil")==0`, `strcmp(str,"num")==0`, then
`strcmp(str,"bool")` and `strcmp(str,"str")` without `==0`, so each of the
last two holds when the strings differ. -/
def var_load_data (str text : String) : Option misn_var_data :=
  if str = "nil" then some .MISN_VAR_NIL
  else if str = "num" then some (.MISN_VAR_NUM (atoi text))
  else if str ≠ "bool" then some (.MISN_VAR_BOOL (atoi text))
  else if str ≠ "str" then some (.MISN_VAR_STR text)
  else none

/-- The body of the inner loop of `var_load` for one node `cur`: a node
named `var` is decoded and handed to `var_add`. -/
def var_load_var (st : VarStack) (cur : xmlVar) : Option VarStack :=
  if cur.elem = "var" then
    match var_load_data cur.type cur.text with
    | some d => var_add st ⟨cur.name, d⟩
    | none => some st
  else some st

/-- The inner loop of `var_load` over the children of a `vars` node. -/
def var_load_vars (st : VarStack) : List xmlVar → Option VarStack
  | [] => some st
  | cur :: rest => (var_load_var st cur).bind (var_load_vars · rest)

/-- The outer loop of `var_load` over the children of the parent. -/
def var_load_nodes (st : VarStack) : List xmlNode → Option VarStack
  | [] => some st
  | node :: rest =>
      if node.elem = "vars" then (var_load_vars st node.children).bind (var_load_nodes · rest)
      else var_load_nodes st rest

/-- `var_load`: `var_cleanup`, then every `var` of every `vars` child of the
parent is added with `var_add`. -/
def var_load (st : VarStack) (parent : List xmlNode) : Option VarStack :=
  (var_cleanup st).bind (var_load_nodes · parent)

/-! ## The player mission table -/

/-- Modelled from the spec: `MissionData` of `mission.h`, the immutable
template of a mission (its name and its flags). -/
structure MissionData where
  name : String
  flags : Nat
  deriving DecidableEq, Repr

/-- Modelled from the spec: `Mission` of `mission.h` (id, template, title,
description, reward text, system marker, linked cargo ids, execution
context). A null pointer is `none`. -/
structure Mission where
  id : Nat
  data : Option MissionData
  title : Option String
  desc : Option String
  reward : Option String
  sys_marker : Option String
  cargo : List Nat
  L : Option Nat
  deriving DecidableEq, Repr

/-- The result of `memset( misn, 0, sizeof(Mission) )`. -/
def Mission.zero : Mission := ⟨0, none, none, none, none, none, [], none⟩

/-- What the pointer `cur_mission` points at: nothing, the `Mission` object
outside the table that the caller of `misn_run` passed (a mission that is not
accepted yet), or the slot `&player_missions[i]`. -/
inductive MissionPtr where
  | NULL
  | misn
  | slot (i : Nat)
  deriving DecidableEq, Repr

/-- The globals `player_missions`, `cur_mission` and `misn_delete`, and the
`Mission` object `misn` outside the table. -/
structure MisnState where
  player_missions : List Mission
  misn : Mission
  cur_mission : MissionPtr
  misn_delete : Int
  deriving DecidableEq, Repr

/-- The loop `for (i=0; i<MISSION_MAX; i++) if (player_missions[i].data == NULL)
break;` of `misn_accept` with `n` iterations left, on the slots from `i` on:
the value of `i` after the loop, `none` if a read leaves the table. -/
def misn_accept_scan : List Mission → Nat → Nat → Option Nat
  | _, 0, i => some i
  | [], _ + 1, _ => none
  | m :: ms, n + 1, i => if m.data = none then some i else misn_accept_scan ms n (i + 1)

/-- `misn_accept`: the new state and the value returned to the script
(`lua_pushboolean(L,!ret)`). `MISSION_MAX` (of `mission.h`) is a parameter.
The `memcpy` reads the object `cur_mission` points at, the `memset` clears
that object; a null `cur_mission`, and a `memcpy` of a slot onto itself, are
undefined. -/
def misn_accept (MISSION_MAX : Nat) (st : MisnState) : Option (MisnState × List LuaValue) :=
  match misn_accept_scan st.player_missions MISSION_MAX 0 with
  | none => none
  | some i =>
    if i ≥ MISSION_MAX then some (st, [.boolean false])
    else
      match st.cur_mission with
      | .NULL => none
      | .misn =>
          some ({ st with player_missions := st.player_missions.set i st.misn,
                          misn := Mission.zero,
                          cur_mission := .slot i }, [.boolean true])
      | .slot j =>
          match st.player_missions[j]? with
          | none => none
          | some m =>
              if j = i then none
              else some ({ st with player_missions :=
                                     (st.player_missions.set i m).set j Mission.zero,
                                   cur_mission := .slot i }, [.boolean true])

/-! ## Running a mission function -/

/-- Modelled from the spec: the pilot-event enumeration of `pilot.h`
(`PILOT_HOOK_DEATH`, `PILOT_HOOK_BOARD`, `PILOT_HOOK_DISABLE`). -/
inductive PilotHook where
  | PILOT_HOOK_DEATH
  | PILOT_HOOK_BOARD
  | PILOT_HOOK_DISABLE
  deriving DecidableEq, Repr

/-- A call that leaves `misn_lua.c`: a collaborator of another file
(`player_missionFinished`, `mission_cleanup`, `hook_add`, `pilot_addHook`
on the pilot `pilot_get(p)`, `mission_sysMark`), a release of memory
(`free` of the string `s`), or a report (`WARN`, `NLUA_DEBUG`,
`NLUA_INVALID_PARAMETER`). The functions below list the calls they make, in
order. -/
inductive Call where
  | player_missionFinished (id : Int)
  | mission_cleanup (m : Mission)
  | hook_add (parent : Nat) (func stack : String)
  | pilot_addHook (p : Nat) (type : PilotHook) (hook : Nat)
  | mission_sysMark
  | free (s : String)
  | WARN
  | NLUA_DEBUG
  | NLUA_INVALID_PARAMETER
  deriving DecidableEq, Repr

/-- The constants and functions of other files of the repository that the
functions below use and that are not in the sources: `MISSION_MAX` and
`MISSION_UNIQUE` of `mission.h`, the id `mission_getID` gives a template
name, the state `mission_cleanup` leaves a mission in, and the id `hook_add`
returns. -/
structure MisnEnv where
  MISSION_MAX : Nat
  MISSION_UNIQUE : Nat
  mission_getID : String → Int
  mission_cleanup : Mission → Mission
  hook_add : Nat → String → String → Nat

/-- The object a mission pointer points at. -/
def MisnState.deref (st : MisnState) : MissionPtr → Option Mission
  | .NULL => none
  | .misn => some st.misn
  | .slot i => st.player_missions[i]?

/-- Modelled from the spec: the macro `mis_isFlag(m,f)` of `mission.h`, the
test of the flag bits `f` in the flags of a template. -/
def mis_isFlag (m : MissionData) (f : Nat) : Bool := m.flags &&& f != 0

/-- `misn_finish` called with the arguments `L`: the new state, the calls
made and the error object it raises (`lua_error`; the function never
returns to the script). Without a boolean first argument nothing but the
`lua_error` happens. -/
def misn_finish (env : MisnEnv) (st : MisnState) (L : List LuaValue) :
    Option (MisnState × List Call × LuaValue) :=
  match L.head? with
  | some (.boolean b) =>
      let st1 := { st with misn_delete := 1 }
      if lua_toboolean (.boolean b) ≠ 0 then
        match st.deref st.cur_mission with
        | none => none
        | some m =>
            match m.data with
            | none => none
            | some d =>
                if mis_isFlag d env.MISSION_UNIQUE then
                  some (st1, [.player_missionFinished (env.mission_getID d.name)],
                    .string "Mission Done")
                else some (st1, [], .string "Mission Done")
      else some (st1, [], .string "Mission Done")
  | _ => some (st, [], .string "Mission Done")

/-- A mission function as far as the mission table sees it: it returns,
it raises an error with a payload, it calls `misn.accept()` and goes on
according to the result, or it calls `misn.finish(...)`, which does not
return. -/
inductive Script where
  | ret
  | error (payload : LuaValue)
  | accept (ok fail : Script)
  | finish (args : List LuaValue)

/-- `lua_pcall` of a mission function: the state after the call, the
calls made, and the error object on the stack when the call was left by an
error (`none` when it returned, status 0). -/
def lua_pcall (env : MisnEnv) : MisnState → Script →
    Option (MisnState × List Call × Option LuaValue)
  | st, .ret => some (st, [], none)
  | st, .error payload => some (st, [], some payload)
  | st, .accept ok fail =>
      match misn_accept env.MISSION_MAX st with
      | none => none
      | some (st1, r) =>
          if r = [.boolean true] then lua_pcall env st1 ok else lua_pcall env st1 fail
  | st, .finish args =>
      match misn_finish env st args with
      | none => none
      | some (st1, calls, payload) => some (st1, calls, some payload)

/-- The status `lua_pcall` returns for a runtime error (`lua.h`, Lua 5.1). -/
def LUA_ERRRUN : Int := 2

/-- `memmove(&slots[dst], &slots[src], n * sizeof(Mission))`. -/
def mission_memmove (slots : List Mission) (dst src n : Nat) : List Mission :=
  slots.take dst ++ (slots.drop src).take n ++ slots.drop (dst + n)

/-- The part of `misn_run` that looks at the result `ret` of `lua_pcall`:
the calls made and the new value of `ret`. After an error the error object
is read through `misn->L`, the execution context of the object that the
argument `misn` points at, as that object is now: a null context (the object
was cleared by `misn.accept` during the call) is undefined. The error object
that is no string gives `err = NULL`, and `strcmp(err,...)` is undefined; the
`WARN` reads `cur_mission->data->name`. -/
def misn_run_ret (cv : LuaConv) (st : MisnState) (pmisn : MissionPtr) :
    Option LuaValue → Option (List Call × Int)
  | none => some ([], 0)
  | some top =>
      match st.deref pmisn with
      | none => none
      | some misn =>
          match misn.L with
          | none => none
          | some _ =>
              if lua_isstring top then
                if lua_tostring cv top ≠ "Mission Done" then
                  match st.deref st.cur_mission with
                  | none => none
                  | some m =>
                      match m.data with
                      | none => none
                      | some _ => some ([.WARN], LUA_ERRRUN)
                else some ([], 1)
              else none

/-- The part `if (misn_delete) { ... }` of `misn_run`: `mission_cleanup` on
the current mission, then, when `cur_mission` is the slot `i` of the table,
the slots after `i` are moved down by one with `memmove`. -/
def misn_run_delete (env : MisnEnv) (st : MisnState) : Option (MisnState × List Call) :=
  if st.misn_delete ≠ 0 then
    match st.cur_mission with
    | .NULL => none
    | .misn =>
        some ({ st with misn := env.mission_cleanup st.misn }, [.mission_cleanup st.misn])
    | .slot i =>
        match st.player_missions[i]? with
        | none => none
        | some m =>
            let slots := st.player_missions.set i (env.mission_cleanup m)
            if i < env.MISSION_MAX then
              if env.MISSION_MAX ≤ slots.length then
                some ({ st with player_missions :=
                                  mission_memmove slots i (i + 1) (env.MISSION_MAX - i - 1) },
                  [.mission_cleanup m])
              else none
            else some ({ st with player_missions := slots }, [.mission_cleanup m])
  else some (st, [])

/-- `misn_run( misn, func )` for the pointer `pmisn` passed as `misn` (it is
dereferenced, so a null pointer is undefined, and so is a null execution
context `misn->L`, which `lua_getglobal` and `lua_pcall` are called on): the
state afterwards, the calls made and the value returned. -/
def misn_run (cv : LuaConv) (env : MisnEnv) (st : MisnState) (pmisn : MissionPtr)
    (func : Script) : Option (MisnState × List Call × Int) :=
  match st.deref pmisn with
  | none => none
  | some misn =>
      match misn.L with
      | none => none
      | some _ =>
          match lua_pcall env { st with cur_mission := pmisn, misn_delete := 0 } func with
          | none => none
          | some (st1, calls1, top) =>
              match misn_run_ret cv st1 pmisn top with
              | none => none
              | some (calls2, ret) =>
                  match misn_run_delete env st1 with
                  | none => none
                  | some (st2, calls3) =>
                      some ({ st2 with cur_mission := .NULL }, calls1 ++ calls2 ++ calls3, ret)

/-! ## Hooks -/

/-- The loop `for (i=0; i<MISSION_MAX; i++) if (player_missions[i].id ==
cur_mission->id) break;` of `hook_generic` with `n` iterations left: whether
it stopped at a slot (`i < MISSION_MAX` afterwards), `none` if a read leaves
the table. -/
def hook_generic_scan (id : Nat) : List Mission → Nat → Option Bool
  | _, 0 => some false
  | [], _ + 1 => none
  | m :: ms, n + 1 => if m.id = id then some true else hook_generic_scan id ms n

/-- `hook_generic( L, stack )` called with the arguments `L`: the calls made
and the value returned. `NLUA_MIN_ARGS` and `NLUA_INVALID_PARAMETER` (of
`nluadef.h`) report and return 0. -/
def hook_generic (cv : LuaConv) (env : MisnEnv) (st : MisnState) (L : List LuaValue)
    (stack : String) : Option (List Call × Nat) :=
  match L.getLast? with
  | none => some ([.NLUA_DEBUG], 0)
  | some a =>
      if lua_isstring a then
        match st.deref st.cur_mission with
        | none => none
        | some cur =>
            match hook_generic_scan cur.id st.player_missions env.MISSION_MAX with
            | none => none
            | some false => some ([.WARN], 0)
            | some true =>
                some ([.hook_add cur.id (lua_tostring cv a) stack],
                  env.hook_add cur.id (lua_tostring cv a) stack)
      else some ([.NLUA_INVALID_PARAMETER], 0)

/-- The conversion `(unsigned int) x` of a `double`: the integer part, defined
when it fits 32 bits. -/
def double_to_uint (x : ℚ) : Option Nat :=
  if -1 < x ∧ x < 4294967296 then some x.floor.toNat else none

/-- The chain of `strcmp(hook_type,...)==0` of `hook_pilot`: the hook type of
an event name, `none` for the last `else`. -/
def hook_pilot_type (hook_type : String) : Option PilotHook :=
  if hook_type = "death" then some .PILOT_HOOK_DEATH
  else if hook_type = "board" then some .PILOT_HOOK_BOARD
  else if hook_type = "disable" then some .PILOT_HOOK_DISABLE
  else none

/-- `hook_pilot` called with the arguments `L`: the calls made. -/
def hook_pilot (cv : LuaConv) (env : MisnEnv) (st : MisnState) (L : List LuaValue) :
    Option (List Call) :=
  match L with
  | a1 :: a2 :: _ =>
      if lua_isnumber cv a1 then
        match double_to_uint (lua_tonumber cv a1) with
        | none => none
        | some p =>
            if lua_isstring a2 then
              match hook_pilot_type (lua_tostring cv a2) with
              | none => some [.NLUA_DEBUG]
              | some type =>
                  match hook_generic cv env st L (lua_tostring cv a2) with
                  | none => none
                  | some (calls, h) => some (calls ++ [.pilot_addHook p type h])
            else some [.NLUA_INVALID_PARAMETER]
      else some [.NLUA_INVALID_PARAMETER]
  | _ => some [.NLUA_DEBUG]

/-! ## The marker of a mission -/

/-- An argument of `misn.setMarker`: a star system (`lua_issystem` holds, the
userdata of `nlua_space.h`, given by the name of the system) or any other
value. -/
inductive LuaArg where
  | system (name : String)
  | value (v : LuaValue)
  deriving DecidableEq, Repr

/-- Store `m` into the object a mission pointer points at. -/
def MisnState.assign (st : MisnState) (m : Mission) : MissionPtr → Option MisnState
  | .NULL => none
  | .misn => some { st with misn := m }
  | .slot i =>
      if i < st.player_missions.length then
        some { st with player_missions := st.player_missions.set i m }
      else none

/-- `misn_setMarker` called with the arguments `L`: the new state and the calls
made. The block for no argument frees the marker and calls `mission_sysMark`;
it does not write `cur_mission->sys_marker` and is not followed by `else`, so
the test `lua_issystem(L,1)` comes next in every case. -/
def misn_setMarker (st : MisnState) (L : List LuaArg) : Option (MisnState × List Call) :=
  let first : Option (List Call) :=
    if L.length = 0 then
      match st.deref st.cur_mission with
      | none => none
      | some m =>
          match m.sys_marker with
          | some s => some [.free s, .mission_sysMark]
          | none => some [.mission_sysMark]
    else some []
  match first with
  | none => none
  | some calls =>
      match L.head? with
      | some (.system name) =>
          match st.deref st.cur_mission with
          | none => none
          | some m =>
              match st.assign { m with sys_marker := some name } st.cur_mission with
              | none => none
              | some st1 => some (st1, calls ++ [.mission_sysMark])
      | _ => some (st, calls ++ [.NLUA_INVALID_PARAMETER])

/-! ## The libraries -/

/-- The C functions that the tables of `misn_lua.c` bind. -/
inductive CFunction where
  | misn_setTitle | misn_setDesc | misn_setReward | misn_setMarker | misn_factions
  | misn_accept | misn_finish
  | var_peek | var_pop | var_push
  | player_getname | player_shipname | player_freeSpace | player_addCargo | player_rmCargo
  | player_pay | player_msg | player_modFaction | player_modFactionRaw | player_getFaction
  | player_getRating
  | hook_land | hook_takeoff | hook_time | hook_enter | hook_pilot
  | pilot_addFleet | pilot_rename
  deriving DecidableEq, Repr

/-- The table `misn_methods`. -/
def misn_methods : List (String × CFunction) :=
  [("setTitle", .misn_setTitle), ("setDesc", .misn_setDesc), ("setReward", .misn_setReward),
   ("setMarker", .misn_setMarker), ("factions", .misn_factions), ("accept", .misn_accept),
   ("finish", .misn_finish)]

/-- The table `var_methods`. -/
def var_methods : List (String × CFunction) :=
  [("peek", .var_peek), ("pop", .var_pop), ("push", .var_push)]

/-- The table `var_cond_methods`. -/
def var_cond_methods : List (String × CFunction) :=
  [("peek", .var_peek)]

/-- The table `player_methods`. -/
def player_methods : List (String × CFunction) :=
  [("name", .player_getname), ("ship", .player_shipname), ("freeCargo", .player_freeSpace),
   ("addCargo", .player_addCargo), ("rmCargo", .player_rmCargo), ("pay", .player_pay),
   ("msg", .player_msg), ("modFaction", .player_modFaction),
   ("modFactionRaw", .player_modFactionRaw), ("getFaction", .player_getFaction),
   ("getRating", .player_getRating)]

/-- The table `player_cond_methods`. -/
def player_cond_methods : List (String × CFunction) :=
  [("name", .player_getname), ("ship", .player_shipname), ("getFaction", .player_getFaction),
   ("getRating", .player_getRating)]

/-- The table `hook_methods`. -/
def hook_methods : List (String × CFunction) :=
  [("land", .hook_land), ("takeoff", .hook_takeoff), ("time", .hook_time),
   ("enter", .hook_enter), ("pilot", .hook_pilot)]

/-- The table `pilot_methods`. -/
def pilot_methods : List (String × CFunction) :=
  [("add", .pilot_addFleet), ("rename", .pilot_rename)]

/-- What a loader does to a Lua state: `luaL_register(L, libname, methods)` with
a table of this file, or the call of a loader of another file
(`lua_loadNaev`, `lua_loadSpace`, `lua_loadTime`, `lua_loadRnd`, `lua_loadTk`)
with its read-only argument, if it has one. -/
inductive Registration where
  | luaL_register (libname : String) (methods : List (String × CFunction))
  | other_file (loader : String) (readonly : Option Int)
  deriving DecidableEq, Repr

/-- `lua_loadMisn`. -/
def lua_loadMisn : List Registration := [.luaL_register "misn" misn_methods]

/-- `lua_loadVar`. -/
def lua_loadVar (readonly : Int) : List Registration :=
  if readonly = 0 then [.luaL_register "var" var_methods]
  else [.luaL_register "var" var_cond_methods]

/-- `lua_loadPlayer`. -/
def lua_loadPlayer (readonly : Int) : List Registration :=
  if readonly = 0 then [.luaL_register "player" player_methods]
  else [.luaL_register "player" player_cond_methods]

/-- `lua_loadHook`. -/
def lua_loadHook : List Registration := [.luaL_register "hook" hook_methods]

/-- `lua_loadPilot`. -/
def lua_loadPilot : List Registration := [.luaL_register "pilot" pilot_methods]

/-- `misn_loadLibs`: the registrations it makes, in order. -/
def misn_loadLibs : List Registration :=
  [.other_file "lua_loadNaev" none] ++ lua_loadMisn ++ lua_loadVar 0 ++
  [.other_file "lua_loadSpace" (some 0), .other_file "lua_loadTime" (some 0)] ++ lua_loadPlayer 0 ++
  [.other_file "lua_loadRnd" none, .other_file "lua_loadTk" none] ++ lua_loadHook ++ lua_loadPilot

/-- `misn_loadCondLibs`: the registrations it makes, in order. -/
def misn_loadCondLibs : List Registration :=
  [.other_file "lua_loadTime" (some 1), .other_file "lua_loadSpace" (some 1)] ++ lua_loadVar 1 ++
  lua_loadPlayer 1

/-! ## Fleets -/

/-- Modelled from the spec: `FleetPilot` of `pilot.h`, a member of a fleet
template (ship, name, inclusion chance, AI override or a null pointer). -/
structure FleetPilot where
  ship : String
  name : String
  chance : Int
  ai : Option String
  deriving DecidableEq, Repr

/-- Modelled from the spec: `Fleet` of `pilot.h`, a fleet template (faction,
default AI, members; `npilots` is the number of members). -/
structure Fleet where
  faction : Int
  ai : Option String
  pilots : List FleetPilot
  deriving DecidableEq, Repr

/-- The arguments of one call of `pilot_create`: ship, name, faction, AI,
direction, position and velocity (the last argument is the constant 0). -/
structure PilotSpawn (V : Type) where
  ship : String
  name : String
  faction : Int
  ai : Option String
  dir : ℚ
  pos : V
  vel : V

/-- The functions of other files that `pilot_addFleet` uses, none of them in
the sources: `fleet_get` and `ai_getProfile` (a null pointer is `none`), the
vector functions of `physics.h` on vectors of type `V`, and `pilot_create` on
the pilot stack of type `σ`, which returns the id of the new pilot.
`vect_pset` and `vect_cadd` stand for the calls with their random arguments:
they get the draws `RNG(...)` of the call, in the order the draws were taken. -/
structure FleetEnv (V σ : Type) where
  fleet_get : String → Option Fleet
  ai_getProfile : String → Option String
  vect_pset : Int → Int → V
  vect_cadd : V → Int → Int → Int → Int → V
  vect_angle : V → V → ℚ
  vectnull : V
  pilot_create : σ → PilotSpawn V → σ × Nat

/-- The local variables of `pilot_addFleet` that its loop changes, with the
pilot stack: the number `rng` of draws taken so far, the position `vp`, the
counter `j`, the calls of `pilot_create` made, and the table under
construction as the list of the `lua_rawset` pairs (key, value). -/
structure FleetLoop (V σ : Type) where
  rng : Nat
  vp : V
  j : Nat
  stack : σ
  created : List (PilotSpawn V)
  table : List (Nat × Nat)

/-- The arguments of the call of `pilot_create` for the member `plt` in the
state `s` of the loop: the position is `vp` after the displacement
`vect_cadd` with the next four draws, the direction is the angle of that
position to the null vector, the velocity is null, and the AI is
`(fltai != NULL) ? ai_getProfile(fltai) : (plt->ai != NULL) ? plt->ai : flt->ai`. -/
def pilot_addFleet_spawn {V σ : Type} (env : FleetEnv V σ) (draws : Nat → Int) (flt : Fleet)
    (fltai : Option String) (plt : FleetPilot) (s : FleetLoop V σ) : PilotSpawn V :=
  let vp := env.vect_cadd s.vp (draws (s.rng + 1)) (draws (s.rng + 2))
    (draws (s.rng + 3)) (draws (s.rng + 4))
  { ship := plt.ship, name := plt.name, faction := flt.faction,
    ai := match fltai with
      | some ai => env.ai_getProfile ai
      | none => match plt.ai with
        | some ai => some ai
        | none => flt.ai,
    dir := env.vect_angle vp env.vectnull, pos := vp, vel := env.vectnull }

/-- The body of `if (RNG(0,100) <= plt->chance)` in the loop of
`pilot_addFleet`: the pilot is created and the pair `(++j, p)` is set in the
table. -/
def pilot_addFleet_body {V σ : Type} (env : FleetEnv V σ) (draws : Nat → Int) (flt : Fleet)
    (fltai : Option String) (plt : FleetPilot) (s : FleetLoop V σ) : FleetLoop V σ :=
  let spawn := pilot_addFleet_spawn env draws flt fltai plt s
  let r := env.pilot_create s.stack spawn
  { rng := s.rng + 5, vp := spawn.pos, j := s.j + 1, stack := r.1,
    created := s.created ++ [spawn], table := s.table ++ [(s.j + 1, r.2)] }

/-- The loop `for (i=0; i<flt->npilots; i++)` of `pilot_addFleet` over the
members that are left. `draws n` is the value of the draw number `n` of the
random source (`RNG` of `rng.h`). -/
def pilot_addFleet_loop {V σ : Type} (env : FleetEnv V σ) (draws : Nat → Int) (flt : Fleet)
    (fltai : Option String) : List FleetPilot → FleetLoop V σ → FleetLoop V σ
  | [], s => s
  | plt :: rest, s =>
      if draws s.rng ≤ plt.chance then
        pilot_addFleet_loop env draws flt fltai rest (pilot_addFleet_body env draws flt fltai plt s)
      else pilot_addFleet_loop env draws flt fltai rest { s with rng := s.rng + 1 }

/-- The AI override of `pilot_addFleet`, from the arguments after the first:
`if (lua_isstring(L,2)) fltai = lua_tostring(L,2); else fltai = NULL;`. -/
def pilot_addFleet_fltai (cv : LuaConv) (rest : List LuaValue) : Option String :=
  match rest.head? with
  | some a2 => if lua_isstring a2 then some (lua_tostring cv a2) else none
  | none => none

/-- `pilot_addFleet` called with the arguments `L` when `rng` draws have been
taken from the random source: the state of the loop at its end, whose table
is the value returned, or the report after which the function returns no
value (too few arguments, a fleet name that is no string, a fleet that is
not found). No execution of it is undefined. -/
def pilot_addFleet {V σ : Type} (cv : LuaConv) (env : FleetEnv V σ) (draws : Nat → Int)
    (rng : Nat) (stack : σ) (L : List LuaValue) : Except Call (FleetLoop V σ) :=
  match L with
  | [] => .error .NLUA_DEBUG
  | a1 :: rest =>
      if lua_isstring a1 then
        match env.fleet_get (lua_tostring cv a1) with
        | none => .error .NLUA_DEBUG
        | some flt =>
            .ok (pilot_addFleet_loop env draws flt (pilot_addFleet_fltai cv rest) flt.pilots
              { rng := rng + 2, vp := env.vect_pset (draws rng) (draws (rng + 1)), j := 0,
                stack := stack, created := [], table := [] })
      else .error .NLUA_INVALID_PARAMETER

/-! ## Strings of C -/

/-- The conversion of an integer to `size_t` (64 bits): the value modulo
`2^64`. -/
def size_t (x : Int) : Nat := (x % 2 ^ 64).toNat

/-- `strlen` on the cells of a character array, from its first cell: the
number of cells before the first `NUL`, `none` when the array holds no `NUL`
(the read leaves the array). -/
def strlen : List Char → Option Nat
  | [] => none
  | c :: cs => if c = NUL then some 0 else (strlen cs).map (· + 1)

/-- `strncpy( dest, src, n )` for a string literal `src` (its characters, the
ending `NUL` left out): the `n` characters written to `dest`, which are the
first `n` characters of `src`, filled up with `NUL`. -/
def strncpy (src : List Char) (n : Nat) : List Char :=
  src.take n ++ List.replicate (n - src.length) NUL

/-- `strncat( dest, src, n )` on the array `dest` for a string literal `src`:
at most `n` characters of `src` and a `NUL` are written from the first `NUL`
of `dest` on. The result is the array afterwards, `none` when `dest` holds
no `NUL` or the write leaves the array. -/
def strncat (dest src : List Char) (n : Nat) : Option (List Char) :=
  match strlen dest with
  | none => none
  | some l =>
      let app := src.take n ++ [NUL]
      if l + app.length ≤ dest.length then
        some (dest.take l ++ app ++ dest.drop (l + app.length))
      else none

/-- The string of C that starts at the first cell of a character array: the
characters before the first `NUL`, `none` when the array holds no `NUL`. -/
def cstring (cells : List Char) : Option (List Char) :=
  (strlen cells).map (fun l => cells.take l)

/-! ## The header of the shaders -/

/-- The version line of `opengl_shader.c`. -/
def GLSL_VERSION : String := "#version 140\n\n"

/-- The line of `opengl_shader.c` that tells a shader that subroutines are
there. -/
def GLSL_SUBROUTINE : String := "#define HAS_GL_ARB_shader_subroutine 1\n"

/-- The line of `opengl_shader.c` that turns the colorblind mode on. -/
def GLSL_COLORBLIND : String := "#define COLORBLIND_MODE ROD_MONOCHROMACY 1\n"

/-- The array `prepend` of `gl_program_vert_frag` when it is passed to
`gl_shader_loadfile`, for the values of `conf.colorblind` and
`GLAD_GL_ARB_shader_subroutine`. `STRMAX` (of `nstring.h`), the size of the
array, is a parameter. The bounds of `strncat` are differences of two
`size_t`. -/
def gl_program_vert_frag_prepend (STRMAX : Nat) (colorblind subroutine : Int) :
    Option (List Char) :=
  let p0 := strncpy GLSL_VERSION.toList STRMAX
  let p1 :=
    if colorblind ≠ 0 then
      match strlen p0 with
      | none => none
      | some l => strncat p0 GLSL_COLORBLIND.toList
          (size_t ((l : Int) - (GLSL_COLORBLIND.toList.length : Int)))
    else some p0
  match p1 with
  | none => none
  | some p1 =>
      if subroutine ≠ 0 then
        match strlen p1 with
        | none => none
        | some l => strncat p1 GLSL_SUBROUTINE.toList
            (size_t ((l : Int) - (GLSL_SUBROUTINE.toList.length : Int)))
      else some p1

/-- The string `prepend` that `gl_program_vert_frag` passes to
`gl_shader_loadfile` for the vertex shader and for the fragment shader. -/
def gl_program_vert_frag_header (STRMAX : Nat) (colorblind subroutine : Int) :
    Option (List Char) :=
  match gl_program_vert_frag_prepend STRMAX colorblind subroutine with
  | none => none
  | some p => cstring p

/-! ## The log -/

/-- The streams `logprintf` is called with. -/
inductive Stream where
  | stdout
  | stderr
  deriving DecidableEq, Repr

/-- A call that leaves `logprintf`: `cli_addMessage` with a string, the
static `log_append` with a stream and a string, `PHYSFS_writeBytes` and
`PHYSFS_flush` on a log file, `fprintf( stream, "%s", s )` and `fflush`. -/
inductive LogCall where
  | cli_addMessage (s : List Char)
  | log_append (stream : Stream) (s : List Char)
  | PHYSFS_writeBytes (file : Nat) (bytes : List Char)
  | PHYSFS_flush (file : Nat)
  | fprintf (stream : Stream) (s : List Char)
  | fflush (stream : Stream)
  deriving DecidableEq, Repr

/-- The globals of `log.c` that `logprintf` reads: `copying` and the two log
files (`none` is a null pointer). -/
structure LogState where
  copying : Int
  logout_file : Option Nat
  logerr_file : Option Nat
  deriving DecidableEq, Repr

/-- The write `buf[i] = c` on an array of cells (`none` is a cell that was
never written), undefined outside the array. -/
def buf_write (buf : List (Option Char)) (i : Nat) (c : Char) : Option (List (Option Char)) :=
  if i < buf.length then some (buf.set i (some c)) else none

/-- The characters of cells that were all written, `none` when one of them
was never written. -/
def cells_chars : List (Option Char) → Option (List Char)
  | [] => some []
  | none :: _ => none
  | some c :: cs => (cells_chars cs).map (c :: ·)

/-- The `count` bytes of an array from the cell `start` on, `none` when
the read leaves the array or meets a cell that was never written. -/
def buf_read (buf : List (Option Char)) (start count : Nat) : Option (List Char) :=
  if start + count ≤ buf.length then cells_chars ((buf.drop start).take count) else none

/-- The string of C at `&buf[start]`: the characters before the first `NUL`,
`none` when a cell that was never written, or the end of the array, comes
first. -/
def buf_string : List (Option Char) → Nat → Option (List Char)
  | [], _ => none
  | none :: _, 0 => none
  | some c :: cs, 0 => if c = NUL then some [] else (buf_string cs 0).map (c :: ·)
  | _ :: cs, start + 1 => buf_string cs start

/-- `vsnprintf( &buf[2], size, fmt, ap )` when `fmt` and its arguments format
to `msg`: at most `size - 1` characters of `msg` and a `NUL` are written
from cell 2 on. -/
def buf_vsnprintf (buf : List (Option Char)) (size : Nat) (msg : List Char) :
    List (Option Char) :=
  let text := (msg.take (size - 1) ++ [NUL]).map some
  buf.take 2 ++ text ++ buf.drop (2 + text.length)

/-- `logprintf( stream, newline, fmt, ... )` with a non-null `fmt` that
formats, with its arguments, to `msg`: the calls made, in order, and the
value returned. `NOLOGPRINTFCONSOLE` is not defined. `buf` has 2048 cells
and `n` is a `size_t`. -/
def logprintf (st : LogState) (stream : Stream) (newline : Int) (msg : List Char) :
    Option (List LogCall × Int) :=
  let buf0 : List (Option Char) := List.replicate 2048 none
  let buf1 := buf_vsnprintf buf0 (2048 - 3) msg
  let n := size_t ((msg.length : Int) - 1)
  let console :=
    match stream with
    | .stderr => (buf1.set 0 (some '#')).set 1 (some 'r')
    | .stdout => buf1
  match buf_string console (if stream = .stderr then 0 else 2) with
  | none => none
  | some shown =>
    let buf2 :=
      if newline ≠ 0 then
        match buf_write console ((2 + n + 1) % 2 ^ 64) '\n' with
        | none => none
        | some b => buf_write b ((2 + n + 2) % 2 ^ 64) NUL
      else buf_write console ((2 + n + 1) % 2 ^ 64) NUL
    match buf2 with
    | none => none
    | some buf =>
      match buf_string buf 2 with
      | none => none
      | some text =>
        let copy := if st.copying ≠ 0 then [LogCall.log_append stream text] else []
        let out :=
          match stream, st.logout_file with
          | .stdout, some f =>
              match buf_read buf 2 (if newline ≠ 0 then (n + 2) % 2 ^ 64 else (n + 1) % 2 ^ 64) with
              | none => none
              | some bytes =>
                  some ([LogCall.PHYSFS_writeBytes f bytes]
                    ++ (if newline ≠ 0 then [LogCall.PHYSFS_flush f] else []))
          | _, _ => some []
        let err :=
          match stream, st.logerr_file with
          | .stderr, some f =>
              match buf_read buf 2 (if newline ≠ 0 then (n + 1) % 2 ^ 64 else n) with
              | none => none
              | some bytes =>
                  some ([LogCall.PHYSFS_writeBytes f bytes]
                    ++ (if newline ≠ 0 then [LogCall.PHYSFS_flush f] else []))
          | _, _ => some []
        match out, err with
        | some o, some e =>
            some ([LogCall.cli_addMessage shown] ++ copy ++ o ++ e
                ++ [LogCall.fprintf stream text]
                ++ (if newline ≠ 0 then [LogCall.fflush stream] else []),
              (text.length : Int))
        | _, _ => none

/-! ## Notions used by the statements -/

/-- The stack that holds exactly the variables `vs`, in this order:
`var_nstack` is their number and the cells `var_stack[0..var_nstack-1]` hold
them. -/
def VarStack.ofList (vs : List misn_var) : VarStack := ⟨vs.map some, vs.length⟩

/-- The first `n` cells when each of them holds a variable. -/
def cells_entries : List (Option misn_var) → Nat → Option (List misn_var)
  | _, 0 => some []
  | some v :: cells, n + 1 => (cells_entries cells n).map (v :: ·)
  | _, _ + 1 => none

/-- The variables of a stack, `var_stack[0..var_nstack-1]`, when each of these
cells holds a variable. -/
def VarStack.entries (st : VarStack) : Option (List misn_var) :=
  cells_entries st.var_stack st.var_nstack

/-- No two variables of the stack share a name (and every cell below
`var_nstack` holds a variable). -/
def VarStack.UniqueNames (st : VarStack) : Prop :=
  ∃ vs, st.entries = some vs ∧ (vs.map (·.name)).Nodup

/-- Index of the first variable named `str`. -/
def var_index (str : String) : List misn_var → Option Nat
  | [] => none
  | w :: ws => if str = w.name then some 0 else (var_index str ws).map (· + 1)

/-- The first variable named `str`. -/
def var_lookup (str : String) : List misn_var → Option misn_var
  | [] => none
  | w :: ws => if str = w.name then some w else var_lookup str ws

/-- Replace the first variable that has the name of `v` by `v`; append `v` if
there is none. -/
def var_upsert (v : misn_var) : List misn_var → List misn_var
  | [] => [v]
  | w :: ws => if v.name = w.name then v :: ws else w :: var_upsert v ws

/-- The value a peek returns for the outcome of a lookup. -/
def var_peek_result : Option misn_var → LuaValue
  | some w => var_peek_value w.d
  | none => .nil

/-- The variables after `var.push(p.1, p.2)` on the variables `vs`; the name
stored is the string of C that the code reads. -/
def var_push_list (cv : LuaConv) (vs : List misn_var) (p : String × LuaValue) : List misn_var :=
  match var_push_data cv p.2 with
  | some d => var_upsert ⟨c_str p.1, d⟩ vs
  | none => vs

/-- The value of the attribute `type` that `var_save` writes for a variable
type. -/
def var_tag : misn_var_data → String
  | .MISN_VAR_NIL => "nil"
  | .MISN_VAR_NUM _ => "num"
  | .MISN_VAR_BOOL _ => "bool"
  | .MISN_VAR_STR _ => "str"

/-- The variables after the body of the inner loop of `var_load` has run
for the node `cur` on the variables `vs`. -/
def var_load_list (vs : List misn_var) (cur : xmlVar) : List misn_var :=
  if cur.elem = "var" then
    match var_load_data cur.type cur.text with
    | some d => var_upsert ⟨cur.name, d⟩ vs
    | none => vs
  else vs

/-- The `var` children of the `vars` nodes of a parent, in document order:
the nodes that the two loops of `var_load` visit. -/
def var_load_records : List xmlNode → List xmlVar
  | [] => []
  | node :: rest =>
      if node.elem = "vars" then node.children ++ var_load_records rest
      else var_load_records rest

/-- The names of a list in the order of their first occurrence. -/
def first_occurrences : List String → List String
  | [] => []
  | x :: xs => x :: (first_occurrences xs).filter (· ≠ x)

/-- The names of the `var` records of a document, in document order. -/
def var_document_names (parent : List xmlNode) : List String :=
  ((var_load_records parent).filter (·.elem = "var")).map (·.name)

/-- The members that are spawned, in the words of the specification: the
members are visited in order, a member is included exactly when its inclusion
draw is at most its chance, and an included member takes four more draws for
its displacement. `rng` is the number of the inclusion draw of the first
member. -/
def fleet_included (draws : Nat → Int) : List FleetPilot → Nat → List FleetPilot
  | [], _ => []
  | plt :: rest, rng =>
      if draws rng ≤ plt.chance then plt :: fleet_included draws rest (rng + 5)
      else fleet_included draws rest (rng + 1)

/-- The AI of a spawned member, in the words of the specification: the
explicit override if one was passed, else the AI of the member if it has
one, else the default AI of the fleet. -/
def fleet_member_ai {V σ : Type} (env : FleetEnv V σ) (fltai : Option String) (flt : Fleet)
    (plt : FleetPilot) : Option String :=
  match fltai with
  | some ai => env.ai_getProfile ai
  | none =>
      match plt.ai with
      | some ai => some ai
      | none => flt.ai

/-- The arguments of `pilot.add(name)`, a call without an AI override, and
of `pilot.add(name, ai)`, a call with the AI override `ai`. -/
def pilot_add_args (name : String) (override : Option String) : List LuaValue :=
  match override with
  | none => [.string name]
  | some ai => [.string name, .string ai]

/-- The ids `pilot_create` returns for a sequence of calls, starting on the
pilot stack `stack`. -/
def fleet_ids {V σ : Type} (env : FleetEnv V σ) : σ → List (PilotSpawn V) → List Nat
  | _, [] => []
  | stack, spawn :: rest =>
      (env.pilot_create stack spawn).2 :: fleet_ids env (env.pilot_create stack spawn).1 rest

/-- A sequence of calls `var.push(name, value)`, one for each pair. -/
def var_push_seq (cv : LuaConv) : VarStack → List (String × LuaValue) → Option VarStack
  | st, [] => some st
  | st, p :: ps => (var_push cv st [.string p.1, p.2]).bind (var_push_seq cv · ps)

/-- A conversion for the closed examples. Like the interpreter it reads a
non-empty string of decimal digits as the integer it denotes; it converts no
other string, and it prints a number as the decimal form of its integer
part. -/
def LuaConv.decimal : LuaConv where
  str2number s :=
    if s.toList ≠ [] ∧ s.toList.all Char.isDigit then some (atoi_digits s.toList 0 : Int) else none
  number2str n := toString n.floor

/-- A mission of template `name` with the id `id`, for the closed examples. -/
def Mission.sample (id : Nat) (name : String) : Mission :=
  ⟨id, some ⟨name, 0⟩, some name, none, none, none, [], some id⟩

/-- A full table of two slots (missions X and Y) and a candidate Z. -/
def MisnState.sampleFull : MisnState :=
  ⟨[Mission.sample 1 "X", Mission.sample 2 "Y"], Mission.sample 3 "Z", .misn, 0⟩

/-- A table of two slots with mission X in slot 0 and slot 1 unused, and a
candidate Y. -/
def MisnState.sampleFree : MisnState :=
  ⟨[Mission.sample 1 "X", Mission.zero], Mission.sample 2 "Y", .misn, 0⟩

/-- The tables of this file among a list of registrations, with
the names they are registered under. -/
def Registration.tables : List Registration → List (String × List (String × CFunction))
  | [] => []
  | .luaL_register libname methods :: rest => (libname, methods) :: Registration.tables rest
  | .other_file _ _ :: rest => Registration.tables rest

/-- The tables of this file that `misn_loadCondLibs` registers. -/
def cond_registered_tables : List (String × List (String × CFunction)) :=
  Registration.tables misn_loadCondLibs

/-- The functions of this file that a conditional context can call. -/
def cond_functions : List CFunction :=
  (cond_registered_tables.map (fun t => t.2.map (·.2))).flatten

/-- Whether the body of a bound function writes state of the game: the
variable stack (`var_pop`, `var_push`), the current mission or the mission
table (the `misn_set...` functions, `misn_accept`, `misn_finish`), the player
(`player_addCargo`, `player_rmCargo`, `player_pay`, `player_msg`,
`player_modFaction`, `player_modFactionRaw`), the hooks (the `hook_...`
functions) or the pilots (`pilot_addFleet`, `pilot_rename`). The other
functions only read and push their result. -/
def CFunction.writes : CFunction → Bool
  | .var_peek | .player_getname | .player_shipname | .player_freeSpace
  | .player_getFaction | .player_getRating | .misn_factions => false
  | _ => true

/-- No call of `hook_add` is among the calls. -/
def no_hook_add (calls : List Call) : Prop :=
  ∀ parent func stack, Call.hook_add parent func stack ∉ calls

/-- No call of `pilot_addHook` is among the calls. -/
def no_pilot_addHook (calls : List Call) : Prop :=
  ∀ p type hook, Call.pilot_addHook p type hook ∉ calls

/-- An environment for the closed examples: a table of two slots, the flag
bit 1 for unique templates, the length of a template name as its id, a
`mission_cleanup` that resets the id and releases the owned strings, cargo
links and execution context, and the hook id 1. -/
def MisnEnv.sample : MisnEnv where
  MISSION_MAX := 2
  MISSION_UNIQUE := 1
  mission_getID name := name.length
  mission_cleanup m :=
    { m with id := 0, title := none, desc := none, reward := none, sys_marker := none,
             cargo := [], L := none }
  hook_add _ _ _ := 1

/-- The state of the closed examples for `misn.setMarker`: the table
`[X, unused]`, where X has the marker "Sol" and is the current mission. -/
def MisnState.sampleMarked : MisnState :=
  ⟨[{ Mission.sample 1 "X" with sys_marker := some "Sol" }, Mission.zero],
    Mission.zero, .slot 0, 0⟩

/-- The state of the closed examples for `misn.finish`: the table
`[Rescue, unused]`, where the template of the mission Rescue has the flag
bit 1 (unique) and the mission is the current one. -/
def MisnState.sampleUnique : MisnState :=
  ⟨[⟨5, some ⟨"Rescue", 1⟩, some "Rescue", none, none, none, [], some 5⟩, Mission.zero],
    Mission.zero, .slot 0, 0⟩

/-- The fleet of the closed examples: three members with the chances 100, 50
and 50, the second with an AI of its own. -/
def Fleet.sample : Fleet :=
  ⟨3, some "pirate",
   [⟨"Hyena", "Pirate Hyena", 100, none⟩, ⟨"Shark", "Pirate Shark", 50, some "scout"⟩,
    ⟨"Ancestor", "Pirate Ancestor", 50, none⟩]⟩

/-- The collaborators of the closed examples for `pilot.add`: vectors are
pairs of integers, the pilot stack is the number of pilots created, the new
pilot gets the id 100 plus that number, and the one fleet is "Pirates". -/
def FleetEnv.sample : FleetEnv (Int × Int) Nat where
  fleet_get name := if name = "Pirates" then some Fleet.sample else none
  ai_getProfile ai := some ai
  vect_pset d1 d2 := (d1, d2)
  vect_cadd v d1 d2 d3 d4 := (v.1 + d1 * d2, v.2 + d3 * d4)
  vect_angle _ _ := 0
  vectnull := (0, 0)
  pilot_create stack _ := (stack + 1, 100 + stack)

/-- The draws of the closed examples for `pilot.add`: 1200 and 45 for the
arrival point, the inclusion draw 30 and four draws of displacement for the
first member, the inclusion draw 60 for the second, the inclusion draw 40
and four draws of displacement for the third. -/
def draws_sample (n : Nat) : Int :=
  [1200, 45, 30, 80, 1, 90, 0, 60, 40, 100, 0, 120, 1].getD n 0

/-- The occupied slots of a table (`data` non-null) form a prefix of it: no
unused slot comes before an occupied one. -/
def dense : List Mission → Bool
  | [] => true
  | m :: ms => if m.data = none then ms.all (fun x => decide (x.data = none)) else dense ms

/-- An environment like `MisnEnv.sample` with a table of three slots. -/
def MisnEnv.sample3 : MisnEnv := { MisnEnv.sample with MISSION_MAX := 3 }

/-- The table `[X, Y, unused]` of three slots; the mission X of slot 0 is the
current mission. -/
def MisnState.sampleActive : MisnState :=
  ⟨[Mission.sample 1 "X", Mission.sample 2 "Y", Mission.zero], Mission.zero, .slot 0, 0⟩

/-- The globals of the log in the closed examples: no copying, the log file
1 for `stdout` and the log file 2 for `stderr`. -/
def LogState.sample : LogState := ⟨0, some 1, some 2⟩

/-- The bytes that the calls of `PHYSFS_writeBytes` among `calls` write, in
order. -/
def log_bytes : List LogCall → List Char
  | [] => []
  | .PHYSFS_writeBytes _ bytes :: rest => bytes ++ log_bytes rest
  | _ :: rest => log_bytes rest

/-! ## Strings of C -/

/-- A string without `NUL` is the string of C that the code reads. -/
theorem c_str_of_not_mem (s : String) (h : NUL ∉ s.toList) : c_str s = s := by
  have ht : s.toList.takeWhile (fun c => decide (c ≠ NUL)) = s.toList := by
    rw [List.takeWhile_eq_self_iff]
    intro c hc
    have : c ≠ NUL := fun e => h (e ▸ hc)
    simpa using this
  unfold c_str
  rw [ht]
  rfl

/-- The string of C holds no `NUL`. -/
theorem not_mem_c_str (s : String) : NUL ∉ (c_str s).toList := by
  intro h
  have := List.mem_takeWhile_imp h
  simp at this

/-- Reading a string of C again gives the same string. -/
theorem c_str_c_str (s : String) : c_str (c_str s) = c_str s :=
  c_str_of_not_mem _ (not_mem_c_str s)

/-! ## The variable stack on well-formed states -/

/-- On cells that all hold variables the loop finds the first index of the
name. -/
theorem var_scan_map_some (str : String) (vs : List misn_var) (i : Nat) :
    var_scan str (vs.map some) vs.length i = some ((var_index str vs).map (· + i)) := by
  induction vs generalizing i with
  | nil => simp [var_scan, var_index]
  | cons w ws ih =>
    simp only [List.map_cons, List.length_cons, var_scan, var_index]
    split
    · simp
    · rw [ih]
      cases var_index str ws <;> simp
      omega

/-- A store into cell `i + 1` leaves cell 0 alone. -/
theorem poke_cons_succ (c d : Option misn_var) (cells : List (Option misn_var)) (i : Nat) :
    poke (c :: cells) (i + 1) d = c :: poke cells i d := by
  simp [poke]

/-- The cell that `var_add` writes, the found index or `var_nstack`, gives the
cells of the updated list. -/
theorem poke_upsert (v : misn_var) (vs : List misn_var) :
    poke (vs.map some) ((var_index v.name vs).getD vs.length) (some v)
      = (var_upsert v vs).map some := by
  induction vs with
  | nil => simp [poke, var_index, var_upsert]
  | cons w ws ih =>
    simp only [var_index, var_upsert]
    split
    · simp [poke]
    · have : ((Option.map (· + 1) (var_index v.name ws)).getD (w :: ws).length)
          = ((var_index v.name ws).getD ws.length) + 1 := by
        cases var_index v.name ws <;> simp
      rw [this, List.map_cons, poke_cons_succ, ih, List.map_cons]

/-- The number of variables grows by one exactly when the name is new. -/
theorem length_upsert (v : misn_var) (vs : List misn_var) :
    (var_upsert v vs).length = if (var_index v.name vs).isSome then vs.length else vs.length + 1 := by
  induction vs with
  | nil => simp [var_index, var_upsert]
  | cons w ws ih =>
    simp only [var_index, var_upsert]
    split
    · simp
    · simp only [List.length_cons, ih]
      cases var_index v.name ws <;> simp

/-- `var_add` on a well-formed stack is defined and updates the list of
variables in place or at the end. -/
theorem var_add_ofList (vs : List misn_var) (v : misn_var) :
    var_add (VarStack.ofList vs) v = some (VarStack.ofList (var_upsert v vs)) := by
  have hp := poke_upsert v vs
  have hl := length_upsert v vs
  unfold var_add VarStack.ofList
  simp only [var_scan_map_some]
  cases h : var_index v.name vs with
  | none => simp [h] at hp hl ⊢; exact ⟨hp, hl.symm⟩
  | some j => simp [h] at hp hl ⊢; exact ⟨hp, hl.symm⟩

/-- The cell at the first index of a name holds the first variable of that
name. -/
theorem var_index_lookup (str : String) (vs : List misn_var) :
    (var_index str vs).map (fun j => (vs.map some)[j]?)
      = (var_lookup str vs).map (fun w => some (some w)) := by
  induction vs with
  | nil => simp [var_index, var_lookup]
  | cons w ws ih =>
    simp only [var_index, var_lookup]
    split
    · simp
    · rw [← ih]
      cases var_index str ws <;> simp

/-- `var.peek(name)` on a well-formed stack returns the value of the first
variable of that name (as a string of C), nil when there is none. -/
theorem var_peek_ofList (cv : LuaConv) (vs : List misn_var) (name : String) :
    var_peek cv (VarStack.ofList vs) [.string name]
      = some [var_peek_result (var_lookup (c_str name) vs)] := by
  have h := var_index_lookup (c_str name) vs
  simp only [var_peek, lua_isstring, lua_tostring, VarStack.ofList, var_scan_map_some, if_true]
  cases hi : var_index (c_str name) vs with
  | none =>
    rw [hi] at h
    cases hl : var_lookup (c_str name) vs with
    | none => simp [var_peek_result]
    | some w => rw [hl] at h; simp at h
  | some j =>
    rw [hi] at h
    cases hl : var_lookup (c_str name) vs with
    | none => rw [hl] at h; simp at h
    | some w =>
      rw [hl] at h
      simp only [Option.map_some', Option.some.injEq] at h
      simp only [Option.map_some', Nat.add_zero, h, var_peek_result]

/-- `var_checkflag` on a well-formed stack tells whether the name is present. -/
theorem var_checkflag_ofList (vs : List misn_var) (name : String) :
    var_checkflag (VarStack.ofList vs) name
      = some (if (var_lookup name vs).isSome then 1 else 0) := by
  have h := var_index_lookup name vs
  simp only [var_checkflag, VarStack.ofList, var_scan_map_some]
  cases hi : var_index name vs <;> cases hl : var_lookup name vs <;> rw [hi, hl] at h <;>
    simp at h ⊢

/-- After an update the name of the new variable is found with the new
variable, every other name as before. -/
theorem var_lookup_upsert (str : String) (v : misn_var) (vs : List misn_var) :
    var_lookup str (var_upsert v vs) = if str = v.name then some v else var_lookup str vs := by
  induction vs with
  | nil => simp [var_upsert, var_lookup]
  | cons w ws ih =>
    simp only [var_upsert]
    split
    · rename_i h
      simp only [var_lookup, ← h]
      split <;> rfl
    · rename_i h
      simp only [var_lookup, ih]
      by_cases h1 : str = w.name
      · have : ¬ str = v.name := fun h2 => h (h2 ▸ h1)
        simp only [h1, if_true]
        rw [if_neg (h1 ▸ this)]
      · simp only [h1, if_false]

/-- `var.push` on a well-formed stack is defined and gives a well-formed
stack. -/
theorem var_push_ofList (cv : LuaConv) (vs : List misn_var) (p : String × LuaValue) :
    var_push cv (VarStack.ofList vs) [.string p.1, p.2]
      = some (VarStack.ofList (var_push_list cv vs p)) := by
  simp only [var_push, lua_isstring, lua_tostring, var_push_list, if_true]
  cases var_push_data cv p.2 with
  | none => rfl
  | some d => exact var_add_ofList vs _

/-- A sequence of pushes on a well-formed stack is defined. -/
theorem var_push_seq_ofList (cv : LuaConv) (vs : List misn_var) (ps : List (String × LuaValue)) :
    var_push_seq cv (VarStack.ofList vs) ps
      = some (VarStack.ofList (ps.foldl (var_push_list cv) vs)) := by
  induction ps generalizing vs with
  | nil => rfl
  | cons p ps ih => simp only [var_push_seq, var_push_ofList, Option.some_bind, ih, List.foldl_cons]

/-- A push to another name does not change what a name is found with. -/
theorem var_lookup_push_other (cv : LuaConv) (name : String) (vs : List misn_var)
    (p : String × LuaValue) (h : c_str p.1 ≠ name) :
    var_lookup name (var_push_list cv vs p) = var_lookup name vs := by
  unfold var_push_list
  cases var_push_data cv p.2 with
  | none => rfl
  | some d =>
    rw [var_lookup_upsert]
    exact if_neg (fun h2 : name = c_str p.1 => h h2.symm)

/-- Pushes to other names do not change what a name is found with. -/
theorem var_lookup_foldl_other (cv : LuaConv) (name : String) (post : List (String × LuaValue))
    (vs : List misn_var) (h : ∀ p ∈ post, c_str p.1 ≠ name) :
    var_lookup name (post.foldl (var_push_list cv) vs) = var_lookup name vs := by
  induction post generalizing vs with
  | nil => rfl
  | cons p ps ih =>
    rw [List.foldl_cons, ih _ (fun q hq => h q (List.mem_cons_of_mem _ hq)),
      var_lookup_push_other cv name vs p (h p (List.mem_cons_self _ _))]

/-- The data `var_push` stores for a value of the four kinds, read back by
`var_peek`: the value itself when it is nil, a number or a boolean; for a
string the number it converts to when the interpreter converts it, else its
characters before the first `NUL`. -/
theorem var_push_data_spec (cv : LuaConv) (v : LuaValue) (hv : v ≠ .other) :
    ∃ d, var_push_data cv v = some d ∧
      ((∀ s, v ≠ .string s) → var_peek_value d = v) ∧
      (∀ s, v = .string s → cv.str2number s = none → var_peek_value d = .string (c_str s)) ∧
      (∀ s n, v = .string s → cv.str2number s = some n → var_peek_value d = .number n) := by
  cases v with
  | other => exact absurd rfl hv
  | nil => exact ⟨_, rfl, fun _ => rfl, (fun s h => nomatch h), (fun s n h => nomatch h)⟩
  | number n => exact ⟨_, rfl, fun _ => rfl, (fun s h => nomatch h), (fun s n h => nomatch h)⟩
  | boolean b =>
    cases b <;> exact ⟨_, rfl, fun _ => rfl, (fun s h => nomatch h), (fun s n h => nomatch h)⟩
  | string s =>
    cases hs : cv.str2number s with
    | none =>
      refine ⟨.MISN_VAR_STR (c_str s), by simp [var_push_data, lua_isnil, lua_isnumber,
        lua_isboolean, lua_isstring, lua_tostring, hs], fun h => absurd rfl (h s),
        fun s1 h1 _ => ?_, fun s1 n h1 h2 => ?_⟩
      · cases h1
        rfl
      · cases h1
        rw [hs] at h2
        cases h2
    | some n =>
      refine ⟨.MISN_VAR_NUM n, by simp [var_push_data, lua_isnil, lua_isnumber, lua_tonumber, hs],
        fun h => absurd rfl (h s), fun s1 h1 h2 => ?_, fun s1 n1 h1 h2 => ?_⟩
      · cases h1
        rw [hs] at h2
        cases h2
      · cases h1
        rw [hs] at h2
        cases h2
        rfl

/-- On every well-formed variable stack a sequence of `var.push` calls whose
last push for `name` carries a value `v` of the four kinds (nil, number,
boolean, string) is defined, and `var.peek(name)` afterwards returns `v`
itself when `v` is nil, a number or a boolean, whatever was pushed to other
names in between. A string comes back as the number it converts to when the
interpreter converts it, else as its characters before the first `NUL`.
Names are the names the code reads, strings of C. -/
theorem var_push_peek_last (cv : LuaConv) (vs : List misn_var)
    (pre post : List (String × LuaValue)) (name : String) (v : LuaValue)
    (hv : v ≠ .other) (hpost : ∀ p ∈ post, c_str p.1 ≠ c_str name) :
    ∃ st, var_push_seq cv (VarStack.ofList vs) (pre ++ (name, v) :: post) = some st ∧
      ((∀ s, v ≠ .string s) → var_peek cv st [.string name] = some [v]) ∧
      (∀ s, v = .string s → cv.str2number s = none →
        var_peek cv st [.string name] = some [.string (c_str s)]) ∧
      (∀ s n, v = .string s → cv.str2number s = some n →
        var_peek cv st [.string name] = some [.number n]) := by
  obtain ⟨d, hd, h1, h2, h3⟩ := var_push_data_spec cv v hv
  refine ⟨_, var_push_seq_ofList cv vs _, ?_⟩
  rw [var_peek_ofList, List.foldl_append, List.foldl_cons,
    var_lookup_foldl_other cv (c_str name) post _ hpost]
  have hl : var_lookup (c_str name)
      (var_push_list cv (pre.foldl (var_push_list cv) vs) (name, v))
      = some ⟨c_str name, d⟩ := by
    simp only [var_push_list, hd, var_lookup_upsert, if_true]
  rw [hl]
  exact ⟨fun h => by rw [← h1 h]; rfl, fun s hs hn => by rw [← h2 s hs hn]; rfl,
    fun s n hs hn => by rw [← h3 s n hs hn]; rfl⟩

/-- An instance: pushes to `credits_bonus` and `flag_seen` on a stack that
already holds `flag_seen`; the last push for `credits_bonus` is the number
500. -/
theorem var_push_peek_last_witness :
    ∃ st, var_push_seq LuaConv.decimal (VarStack.ofList [⟨"flag_seen", .MISN_VAR_NIL⟩])
        ([("credits_bonus", .number 1)] ++ ("credits_bonus", .number 500) ::
          [("flag_seen", .boolean true)]) = some st ∧
      var_peek LuaConv.decimal st [.string "credits_bonus"] = some [.number 500] := by
  obtain ⟨st, hst, h1, -, -⟩ :=
    var_push_peek_last LuaConv.decimal [⟨"flag_seen", .MISN_VAR_NIL⟩]
      [("credits_bonus", .number 1)] [("flag_seen", .boolean true)] "credits_bonus"
      (.number 500) (by decide) (by decide)
  exact ⟨st, hst, h1 (fun s h => by cases h)⟩

/-- C1: evaluation of `var.push("credits_bonus", "500")` with the string
"500" on the empty stack, followed by `var.peek("credits_bonus")`. The chain
of `var_push` tests `lua_isnumber` before `lua_isstring`, and `lua_isnumber`
holds for a string that converts to a number, so the variable is stored as
`MISN_VAR_NUM` and the peek returns the number 500, not the string "500"
that was pushed: kind and payload differ. -/
theorem var_push_peek_numeric_string :
    (var_push_seq LuaConv.decimal VarStack.init [("credits_bonus", .string "500")]).bind
        (var_peek LuaConv.decimal · [.string "credits_bonus"]) = some [.number 500] ∧
    (var_push_seq LuaConv.decimal VarStack.init [("credits_bonus", .string "500")]).bind
        (var_peek LuaConv.decimal · [.string "credits_bonus"]) ≠ some [.string "500"] ∧
    var_push LuaConv.decimal VarStack.init [.string "credits_bonus", .string "500"]
      = some (VarStack.ofList [⟨"credits_bonus", .MISN_VAR_NUM 500⟩]) := by
  decide

/-- A string with a `NUL` inside is stored up to the `NUL` (`strdup` of the
`char*`): after `var.push("k", s)` with the three characters `a`, `NUL`, `b`
as `s`, `var.peek("k")` returns "a". -/
theorem var_push_peek_embedded_nul :
    (var_push_seq LuaConv.decimal VarStack.init [("k", .string (String.mk ['a', NUL, 'b']))]).bind
        (var_peek LuaConv.decimal · [.string "k"]) = some [.string "a"] := by
  decide

/-! ## Distinct names, `var_load` -/

/-- The entries of cells that all hold variables. -/
theorem cells_entries_map_some (vs : List misn_var) :
    cells_entries (vs.map some) vs.length = some vs := by
  induction vs with
  | nil => rfl
  | cons w ws ih => simp [cells_entries, ih]

/-- The entries of a well-formed stack are its variables. -/
theorem entries_ofList (vs : List misn_var) : (VarStack.ofList vs).entries = some vs :=
  cells_entries_map_some vs

/-- On a well-formed stack the invariant says that the list of names has no
duplicate. -/
theorem uniqueNames_ofList (vs : List misn_var) :
    (VarStack.ofList vs).UniqueNames ↔ (vs.map (·.name)).Nodup := by
  constructor
  · rintro ⟨ws, h, hn⟩
    rw [entries_ofList] at h
    cases h
    exact hn
  · exact fun h => ⟨vs, entries_ofList vs, h⟩

/-- A name after an update is the new name or an old one. -/
theorem mem_names_upsert (v : misn_var) (vs : List misn_var) (x : String)
    (h : x ∈ (var_upsert v vs).map (·.name)) : x = v.name ∨ x ∈ vs.map (·.name) := by
  induction vs with
  | nil => simpa [var_upsert] using h
  | cons w ws ih =>
    simp only [var_upsert] at h
    split at h
    · rename_i hw
      simp only [List.map_cons, List.mem_cons] at h ⊢
      rcases h with h | h
      · exact Or.inl h
      · exact Or.inr (Or.inr h)
    · simp only [List.map_cons, List.mem_cons] at h ⊢
      rcases h with h | h
      · exact Or.inr (Or.inl h)
      · rcases ih h with h1 | h1
        · exact Or.inl h1
        · exact Or.inr (Or.inr h1)

/-- Adding a variable keeps the names distinct. -/
theorem nodup_names_upsert (v : misn_var) (vs : List misn_var)
    (h : (vs.map (·.name)).Nodup) : ((var_upsert v vs).map (·.name)).Nodup := by
  induction vs with
  | nil => simp [var_upsert]
  | cons w ws ih =>
    simp only [List.map_cons, List.nodup_cons] at h
    simp only [var_upsert]
    split
    · rename_i hw
      simp only [List.map_cons, List.nodup_cons, hw]
      exact h
    · rename_i hw
      simp only [List.map_cons, List.nodup_cons]
      refine ⟨fun hmem => ?_, ih h.2⟩
      rcases mem_names_upsert v ws _ hmem with h1 | h1
      · exact hw h1.symm
      · exact h.1 h1

/-- A push of a name that is present replaces the variable at its index and
changes nothing else. -/
theorem var_upsert_of_index (v : misn_var) (vs : List misn_var) (i : Nat)
    (h : var_index v.name vs = some i) : var_upsert v vs = vs.set i v := by
  induction vs generalizing i with
  | nil => simp [var_index] at h
  | cons w ws ih =>
    simp only [var_index] at h
    simp only [var_upsert]
    split at h
    · rename_i hw
      cases h
      simp [hw]
    · rename_i hw
      cases hi : var_index v.name ws with
      | none => simp [hi] at h
      | some j =>
        simp only [hi, Option.map_some', Option.some.injEq] at h
        subst h
        simp [hw, ih j hi]

/-- `var.push` on a stack with distinct names gives a stack with distinct
names. -/
theorem var_push_uniqueNames (cv : LuaConv) (vs : List misn_var) (p : String × LuaValue)
    (h : (VarStack.ofList vs).UniqueNames) :
    ∃ st, var_push cv (VarStack.ofList vs) [.string p.1, p.2] = some st ∧ st.UniqueNames := by
  refine ⟨_, var_push_ofList cv vs p, ?_⟩
  rw [uniqueNames_ofList] at h ⊢
  unfold var_push_list
  cases var_push_data cv p.2 with
  | none => exact h
  | some d => exact nodup_names_upsert _ _ h

/-- `var_cleanup` on a well-formed stack gives the empty stack. -/
theorem var_cleanup_ofList (vs : List misn_var) :
    var_cleanup (VarStack.ofList vs) = some VarStack.init := by
  have h : List.take vs.length (List.map some vs) = List.map some vs :=
    List.take_of_length_le (by simp)
  simp [var_cleanup, VarStack.ofList, h]

/-- One node of the document on a well-formed stack. -/
theorem var_load_var_ofList (vs : List misn_var) (cur : xmlVar) :
    var_load_var (VarStack.ofList vs) cur = some (VarStack.ofList (var_load_list vs cur)) := by
  unfold var_load_var var_load_list
  split
  · cases var_load_data cur.type cur.text with
    | none => rfl
    | some d => exact var_add_ofList vs _
  · rfl

/-- The children of one `vars` node on a well-formed stack. -/
theorem var_load_vars_ofList (vs : List misn_var) (curs : List xmlVar) :
    var_load_vars (VarStack.ofList vs) curs
      = some (VarStack.ofList (curs.foldl var_load_list vs)) := by
  induction curs generalizing vs with
  | nil => rfl
  | cons c cs ih => simp only [var_load_vars, var_load_var_ofList, Option.some_bind, ih,
      List.foldl_cons]

/-- The children of the parent on a well-formed stack. -/
theorem var_load_nodes_ofList (vs : List misn_var) (parent : List xmlNode) :
    var_load_nodes (VarStack.ofList vs) parent
      = some (VarStack.ofList ((var_load_records parent).foldl var_load_list vs)) := by
  induction parent generalizing vs with
  | nil => rfl
  | cons n ns ih =>
    simp only [var_load_nodes, var_load_records]
    split
    · simp only [var_load_vars_ofList, Option.some_bind, ih, List.foldl_append]
    · exact ih vs

/-- `var_load` on a well-formed stack: the old variables are dropped and the
visited nodes are added one after the other. -/
theorem var_load_ofList (vs : List misn_var) (parent : List xmlNode) :
    var_load (VarStack.ofList vs) parent
      = some (VarStack.ofList ((var_load_records parent).foldl var_load_list [])) := by
  simp only [var_load, var_cleanup_ofList, Option.some_bind]
  exact var_load_nodes_ofList [] parent

/-- Loading nodes keeps the names distinct. -/
theorem nodup_names_load_list (curs : List xmlVar) (vs : List misn_var)
    (h : (vs.map (·.name)).Nodup) : ((curs.foldl var_load_list vs).map (·.name)).Nodup := by
  induction curs generalizing vs with
  | nil => exact h
  | cons c cs ih =>
    rw [List.foldl_cons]
    apply ih
    unfold var_load_list
    split
    · cases var_load_data c.type c.text with
      | none => exact h
      | some d => exact nodup_names_upsert _ _ h
    · exact h

/-- `var_load` on a well-formed stack gives a stack with distinct names. -/
theorem var_load_uniqueNames (vs : List misn_var) (parent : List xmlNode) :
    ∃ st, var_load (VarStack.ofList vs) parent = some st ∧ st.UniqueNames := by
  refine ⟨_, var_load_ofList vs parent, ?_⟩
  rw [uniqueNames_ofList]
  exact nodup_names_load_list _ [] List.nodup_nil

/-- The last `else` of the chain in `var_load` is never taken: every type
attribute is decoded to some variable type. -/
theorem var_load_data_ne_none (str text : String) : var_load_data str text ≠ none := by
  unfold var_load_data
  split
  · simp
  · split
    · simp
    · split
      · simp
      · rename_i h
        have hb : str = "bool" := not_not.mp h
        subst hb
        simp

/-- A type attribute other than "nil" and "num" is decoded as follows:
"bool" gives a string variable, every other one a boolean variable. -/
theorem var_load_data_other (str text : String) (h1 : str ≠ "nil") (h2 : str ≠ "num") :
    var_load_data str text
      = if str = "bool" then some (.MISN_VAR_STR text) else some (.MISN_VAR_BOOL (atoi text)) := by
  unfold var_load_data
  rw [if_neg h1, if_neg h2]
  by_cases hb : str = "bool"
  · subst hb
    simp
  · simp [hb]

/-! ## `var_pop` -/

/-- A name has no index exactly when no variable has it. -/
theorem var_index_eq_none (str : String) (vs : List misn_var) :
    var_index str vs = none ↔ var_lookup str vs = none := by
  have h := var_index_lookup str vs
  cases hi : var_index str vs <;> cases hl : var_lookup str vs <;> rw [hi, hl] at h <;>
    simp at h ⊢

/-- `var.pop` of a name that is absent leaves a well-formed stack as it is. -/
theorem var_pop_absent (cv : LuaConv) (vs : List misn_var) (name : String)
    (h : var_lookup (c_str name) vs = none) :
    var_pop cv (VarStack.ofList vs) [.string name] = some (VarStack.ofList vs) := by
  have hi := (var_index_eq_none (c_str name) vs).mpr h
  simp [var_pop, lua_isstring, lua_tostring, VarStack.ofList, var_scan_map_some, hi]

/-- `var.pop` of a name that is present keeps `var_nstack` and leaves a cell
without a variable at `var_stack[0]`. -/
theorem var_pop_present (cv : LuaConv) (vs : List misn_var) (name : String)
    (h : var_lookup (c_str name) vs ≠ none) :
    ∃ cells n, var_pop cv (VarStack.ofList vs) [.string name] = some ⟨none :: cells, n + 1⟩ ∧
      n + 1 = vs.length := by
  have hi : var_index (c_str name) vs ≠ none :=
    fun hn => h ((var_index_eq_none (c_str name) vs).mp hn)
  obtain ⟨i, hi⟩ := Option.ne_none_iff_exists'.mp hi
  cases vs with
  | nil => simp [var_index] at hi
  | cons w ws =>
    refine ⟨memmove (poke ((w :: ws).map some) i none) i (i + 1) ((w :: ws).length - i - 1),
      ws.length, ?_, rfl⟩
    have hs := var_scan_map_some (c_str name) (w :: ws) 0
    rw [hi] at hs
    simp only [var_pop, lua_isstring, lua_tostring, VarStack.ofList, hs,
      if_true, Option.map_some', Nat.add_zero]
    rfl

/-- On a stack whose cell `var_stack[0]` holds no variable while `var_nstack`
is positive, every operation is undefined. -/
theorem var_undefined_after_pop (cv : LuaConv) (cells : List (Option misn_var)) (n : Nat)
    (name : String) (v : misn_var) (parent : List xmlNode) :
    var_peek cv ⟨none :: cells, n + 1⟩ [.string name] = none ∧
    var_checkflag ⟨none :: cells, n + 1⟩ name = none ∧
    var_pop cv ⟨none :: cells, n + 1⟩ [.string name] = none ∧
    var_add ⟨none :: cells, n + 1⟩ v = none ∧
    var_save ⟨none :: cells, n + 1⟩ = none ∧
    var_load ⟨none :: cells, n + 1⟩ parent = none := by
  refine ⟨rfl, rfl, rfl, rfl, rfl, ?_⟩
  simp [var_load, var_cleanup]

/-- The text written for a number variable is undefined, whatever the
number. -/
theorem var_save_var_num (name : String) (num : ℚ) :
    var_save_var ⟨name, .MISN_VAR_NUM num⟩ = none := by
  simp [var_save_var, xmlw_str, vformat]

/-- The element written for a boolean variable: type "bool" and the
decimal form of the stored int. -/
theorem var_save_var_bool (name : String) (b : Int) :
    var_save_var ⟨name, .MISN_VAR_BOOL b⟩ = some ⟨"var", name, "bool", toString b⟩ := by
  simp [var_save_var, xmlw_str, vformat, fmt_d]

/-! ## `var_save` -/

/-- A format without a percent sign is written as it is. -/
theorem vformat_plain (cs : List Char) (h : '%' ∉ cs) : vformat false cs [] = some cs := by
  induction cs with
  | nil => rfl
  | cons c cs ih =>
    simp only [List.mem_cons, not_or] at h
    have hc : c ≠ '%' := fun e => h.1 e.symm
    simp only [vformat, if_neg hc, ih h.2, Option.map_some']

/-- The element written for a string variable without a percent sign. -/
theorem var_save_var_str (name str : String) (h : '%' ∉ str.toList) :
    var_save_var ⟨name, .MISN_VAR_STR str⟩ = some ⟨"var", name, "str", str⟩ := by
  simp only [var_save_var, xmlw_str, vformat_plain _ h, Option.map_some']
  rfl

/-- Element name, `name` and `type` of the element written for a variable. -/
theorem var_save_var_record (v : misn_var) (x : xmlVar) (h : var_save_var v = some x) :
    (x.elem, x.name, x.type) = ("var", v.name, var_tag v.d) := by
  obtain ⟨name, d⟩ := v
  cases d with
  | MISN_VAR_NIL =>
    simp only [var_save_var, Option.some.injEq] at h
    subst h
    rfl
  | MISN_VAR_NUM num => simp [var_save_var_num] at h
  | MISN_VAR_BOOL b =>
    simp only [var_save_var_bool, Option.some.injEq] at h
    subst h
    rfl
  | MISN_VAR_STR str =>
    simp only [var_save_var] at h
    cases hx : xmlw_str str [] with
    | none => simp [hx] at h
    | some t =>
      simp only [hx, Option.map_some', Option.some.injEq] at h
      subst h
      rfl

/-- When `var_save` is defined on a well-formed stack it writes the element
`vars` with one `var` child per variable, in stack order, each with the name
of the variable and the tag of its type. -/
theorem var_save_ofList_records (vs : List misn_var) (doc : xmlNode)
    (h : var_save (VarStack.ofList vs) = some doc) :
    doc.elem = "vars" ∧
      doc.children.map (fun x => (x.elem, x.name, x.type))
        = vs.map (fun v => ("var", v.name, var_tag v.d)) := by
  have key : ∀ (ws : List misn_var) (xs : List xmlVar),
      var_save_loop (ws.map some) ws.length = some xs →
      xs.map (fun x => (x.elem, x.name, x.type))
        = ws.map (fun v => ("var", v.name, var_tag v.d)) := by
    intro ws
    induction ws with
    | nil =>
      intro xs hxs
      simp only [List.map_nil, List.length_nil, var_save_loop, Option.some.injEq] at hxs
      subst hxs
      rfl
    | cons w ws ih =>
      intro xs hxs
      simp only [List.map_cons, List.length_cons, var_save_loop] at hxs
      cases hw : var_save_var w with
      | none => simp [hw] at hxs
      | some x =>
        cases hr : var_save_loop (ws.map some) ws.length with
        | none => simp [hw, hr] at hxs
        | some xr =>
          simp only [hw, hr, Option.some.injEq] at hxs
          subst hxs
          simp only [List.map_cons, var_save_var_record w x hw, ih xr hr]
  unfold var_save VarStack.ofList at h
  cases hl : var_save_loop (vs.map some) vs.length with
  | none => simp [hl] at h
  | some xs =>
    simp only [hl, Option.map_some', Option.some.injEq] at h
    subst h
    exact ⟨rfl, key vs xs hl⟩

/-- `var_save` is defined on a well-formed stack that holds no number and no
string with a percent sign. -/
theorem var_save_defined (vs : List misn_var)
    (hnum : ∀ v ∈ vs, ∀ num, v.d ≠ .MISN_VAR_NUM num)
    (hstr : ∀ v ∈ vs, ∀ str, v.d = .MISN_VAR_STR str → '%' ∉ str.toList) :
    ∃ doc, var_save (VarStack.ofList vs) = some doc := by
  have key : ∀ ws : List misn_var, (∀ v ∈ ws, ∀ num, v.d ≠ .MISN_VAR_NUM num) →
      (∀ v ∈ ws, ∀ str, v.d = .MISN_VAR_STR str → '%' ∉ str.toList) →
      ∃ xs, var_save_loop (ws.map some) ws.length = some xs := by
    intro ws
    induction ws with
    | nil => exact fun _ _ => ⟨[], rfl⟩
    | cons w ws ih =>
      intro h1 h2
      obtain ⟨xr, hr⟩ := ih (fun v hv => h1 v (List.mem_cons_of_mem _ hv))
        (fun v hv => h2 v (List.mem_cons_of_mem _ hv))
      have hw : ∃ x, var_save_var w = some x := by
        have h1w := h1 w (List.mem_cons_self _ _)
        have h2w := h2 w (List.mem_cons_self _ _)
        obtain ⟨name, d⟩ := w
        cases d with
        | MISN_VAR_NIL => exact ⟨_, rfl⟩
        | MISN_VAR_NUM num => exact absurd rfl (h1w num)
        | MISN_VAR_BOOL b => exact ⟨_, var_save_var_bool name b⟩
        | MISN_VAR_STR str => exact ⟨_, var_save_var_str name str (h2w str rfl)⟩
      obtain ⟨x, hx⟩ := hw
      exact ⟨x :: xr, by simp [var_save_loop, hx, hr]⟩
  obtain ⟨xs, hxs⟩ := key vs hnum hstr
  exact ⟨⟨"vars", xs⟩, by simp [var_save, VarStack.ofList, hxs]⟩

/-! ## Evaluations of the variable stack -/

/-- C2: evaluation of `var.push("flag_seen", true)`, `var.pop("flag_seen")`,
`var.peek("flag_seen")` on the initial stack. The pop leaves `var_nstack` at 1
and `var_stack` one cell in front of the array, so the peek and
`var_checkflag` read a cell that holds no variable: neither returns a
value. -/
theorem var_push_pop_peek_undefined :
    (var_push LuaConv.decimal VarStack.init [.string "flag_seen", .boolean true]).bind
        (var_pop LuaConv.decimal · [.string "flag_seen"]) = some ⟨[none, none], 1⟩ ∧
    var_peek LuaConv.decimal ⟨[none, none], 1⟩ [.string "flag_seen"] = none ∧
    var_checkflag ⟨[none, none], 1⟩ "flag_seen" = none := by
  decide

/-- C3: evaluation of `var_save` followed by `var_load` on the stack that
holds the boolean `flag_seen = true`. The document has the record
`flag_seen`, type "bool", text "1"; loading it gives the string "1" under
`flag_seen`, not the boolean. -/
theorem var_save_load_boolean :
    var_save (VarStack.ofList [⟨"flag_seen", .MISN_VAR_BOOL 1⟩])
      = some ⟨"vars", [⟨"var", "flag_seen", "bool", "1"⟩]⟩ ∧
    var_load (VarStack.ofList [⟨"flag_seen", .MISN_VAR_BOOL 1⟩])
        [⟨"vars", [⟨"var", "flag_seen", "bool", "1"⟩]⟩]
      = some (VarStack.ofList [⟨"flag_seen", .MISN_VAR_STR "1"⟩]) := by
  decide

/-- C4: evaluation of `var_load` on single records. The type "bool" is
decoded as a string variable and the type "str" as a boolean variable (the
`atoi` of its text); "nil" and "num" are decoded as nil and number. -/
theorem var_load_tags :
    var_load VarStack.init [⟨"vars", [⟨"var", "flag_seen", "bool", "1"⟩]⟩]
      = some (VarStack.ofList [⟨"flag_seen", .MISN_VAR_STR "1"⟩]) ∧
    var_load VarStack.init [⟨"vars", [⟨"var", "pilot_name", "str", "Kestrel"⟩]⟩]
      = some (VarStack.ofList [⟨"pilot_name", .MISN_VAR_BOOL 0⟩]) ∧
    var_load VarStack.init [⟨"vars", [⟨"var", "empty", "nil", ""⟩]⟩]
      = some (VarStack.ofList [⟨"empty", .MISN_VAR_NIL⟩]) ∧
    var_load VarStack.init [⟨"vars", [⟨"var", "credits_bonus", "num", "500"⟩]⟩]
      = some (VarStack.ofList [⟨"credits_bonus", .MISN_VAR_NUM 500⟩]) := by
  decide

/-- C5: evaluation of `var_load` on a document whose first record has the
unknown type "int": the record is not skipped, it adds the boolean variable
`broken` (the `atoi` of its text); the record after it is loaded. -/
theorem var_load_unknown_tag :
    var_load VarStack.init
        [⟨"vars", [⟨"var", "broken", "int", "5"⟩, ⟨"var", "credits_bonus", "num", "500"⟩]⟩]
      = some (VarStack.ofList
          [⟨"broken", .MISN_VAR_BOOL 5⟩, ⟨"credits_bonus", .MISN_VAR_NUM 500⟩]) := by
  decide

/-- C6: evaluation of `var_save` on the stack that holds the number
`credits_bonus = 500`. The `double` is passed to the directive `%d`, so the
text written is undefined: no payload that denotes 500 is produced. -/
theorem var_save_number_undefined :
    var_save_var ⟨"credits_bonus", .MISN_VAR_NUM 500⟩ = none ∧
    var_save (VarStack.ofList [⟨"credits_bonus", .MISN_VAR_NUM 500⟩]) = none := by
  decide

/-- C7: evaluation of `var.pop("flag_seen")` on the stack that holds only
`flag_seen`. Before the pop the names are distinct; after it `var_nstack` is
still 1 and the one cell below it holds no variable, so the stack is no
longer a collection of variables with distinct names. -/
theorem var_pop_breaks_unique_names :
    (VarStack.ofList [⟨"flag_seen", .MISN_VAR_BOOL 1⟩]).UniqueNames ∧
    var_pop LuaConv.decimal (VarStack.ofList [⟨"flag_seen", .MISN_VAR_BOOL 1⟩])
        [.string "flag_seen"] = some ⟨[none, none], 1⟩ ∧
    ¬ (VarStack.mk [none, none] 1).UniqueNames := by
  refine ⟨⟨_, rfl, by decide⟩, by decide, ?_⟩
  rintro ⟨vs, h, -⟩
  have hn : (VarStack.mk [none, none] 1).entries = none := by decide
  rw [hn] at h
  cases h

/-- C8: evaluation of `var.pop("flag_seen")` on the stack that holds
`flag_seen` and `credits_bonus`. The count `var_nstack` stays 2; the cells
seen from `var_stack` are a cell that holds no variable, then
`credits_bonus`, then a stale copy of `credits_bonus`. -/
theorem var_pop_keeps_count :
    var_pop LuaConv.decimal
        (VarStack.ofList [⟨"flag_seen", .MISN_VAR_BOOL 1⟩, ⟨"credits_bonus", .MISN_VAR_NUM 500⟩])
        [.string "flag_seen"]
      = some ⟨[none, some ⟨"credits_bonus", .MISN_VAR_NUM 500⟩,
                some ⟨"credits_bonus", .MISN_VAR_NUM 500⟩], 2⟩ := by
  decide

/-! ## `misn_accept` -/

/-- On a full table the scan of `misn_accept` runs to the end. -/
theorem misn_accept_scan_full (pm : List Mission) (i : Nat)
    (hfull : ∀ m ∈ pm, m.data ≠ none) :
    misn_accept_scan pm pm.length i = some (i + pm.length) := by
  induction pm generalizing i with
  | nil => rfl
  | cons m ms ih =>
    have hm : m.data ≠ none := hfull m (List.mem_cons_self _ _)
    simp only [List.length_cons, misn_accept_scan, hm, if_false]
    rw [ih (i + 1) (fun x hx => hfull x (List.mem_cons_of_mem _ hx))]
    congr 1
    omega

/-- On a table with an unused slot the scan of `misn_accept` stops at the
unused slot of lowest index. -/
theorem misn_accept_scan_free (pm : List Mission) (i : Nat)
    (hfree : ∃ m ∈ pm, m.data = none) :
    ∃ k, k < pm.length ∧ misn_accept_scan pm pm.length i = some (i + k) ∧
      (∃ m, pm[k]? = some m ∧ m.data = none) ∧
      ∀ j, j < k → ∃ m, pm[j]? = some m ∧ m.data ≠ none := by
  induction pm generalizing i with
  | nil =>
    obtain ⟨m, hm, -⟩ := hfree
    cases hm
  | cons m ms ih =>
    by_cases hm : m.data = none
    · refine ⟨0, by simp, by simp [misn_accept_scan, hm], ⟨m, by simp, hm⟩, fun j hj => by omega⟩
    · have hfree1 : ∃ x ∈ ms, x.data = none := by
        obtain ⟨x, hx, hxd⟩ := hfree
        rcases List.mem_cons.mp hx with rfl | hx1
        · exact absurd hxd hm
        · exact ⟨x, hx1, hxd⟩
      obtain ⟨k, hk, hscan, hslot, hlow⟩ := ih (i + 1) hfree1
      refine ⟨k + 1, by simp [hk], ?_, by simpa using hslot, fun j hj => ?_⟩
      · simp only [List.length_cons, misn_accept_scan, hm, if_false, hscan]
        congr 1
        omega
      · cases j with
        | zero => exact ⟨m, by simp, hm⟩
        | succ j => simpa using hlow j (by omega)

/-- C9: when the table has `MISSION_MAX` slots and each of them is occupied
(`data` non-null), `misn.accept` returns false and the state is the one
before the call: every slot of `player_missions`, the candidate mission and
`cur_mission` are unchanged. -/
theorem misn_accept_full (MISSION_MAX : Nat) (st : MisnState)
    (hlen : st.player_missions.length = MISSION_MAX)
    (hfull : ∀ m ∈ st.player_missions, m.data ≠ none) :
    misn_accept MISSION_MAX st = some (st, [.boolean false]) := by
  have h := misn_accept_scan_full st.player_missions 0 hfull
  rw [hlen, Nat.zero_add] at h
  simp [misn_accept, h]

/-- C10: when the table has `MISSION_MAX` slots, one of them unused, and
`cur_mission` points at a candidate outside the table, `misn.accept` returns
true; the slot `i` it fills is unused, every slot below `i` is occupied,
slot `i` holds the candidate afterwards, every other slot is unchanged, and
`cur_mission` points at slot `i`. -/
theorem misn_accept_free (MISSION_MAX : Nat) (st : MisnState)
    (hlen : st.player_missions.length = MISSION_MAX)
    (hfree : ∃ m ∈ st.player_missions, m.data = none)
    (hcur : st.cur_mission = .misn) :
    ∃ i st1, misn_accept MISSION_MAX st = some (st1, [.boolean true]) ∧
      i < MISSION_MAX ∧
      (∃ m, st.player_missions[i]? = some m ∧ m.data = none) ∧
      (∀ j, j < i → ∃ m, st.player_missions[j]? = some m ∧ m.data ≠ none) ∧
      st1.player_missions[i]? = some st.misn ∧
      st1.player_missions.length = MISSION_MAX ∧
      (∀ j, j ≠ i → st1.player_missions[j]? = st.player_missions[j]?) ∧
      st1.cur_mission = .slot i := by
  obtain ⟨k, hk, hscan, hslot, hlow⟩ := misn_accept_scan_free st.player_missions 0 hfree
  rw [hlen] at hk hscan
  rw [Nat.zero_add] at hscan
  refine ⟨k, { st with player_missions := st.player_missions.set k st.misn,
                       misn := Mission.zero, cur_mission := .slot k },
    ?_, hk, hslot, hlow, ?_, ?_, ?_, rfl⟩
  · simp only [misn_accept, hscan, hcur, ge_iff_le, Nat.not_le.mpr hk, if_false]
  · simp [hlen, hk]
  · simp [hlen]
  · intro j hj
    simp [List.getElem?_set_ne (Ne.symm hj)]

/-- Witness of C9: a table of two slots, both occupied. -/
theorem misn_accept_full_witness :
    misn_accept 2 MisnState.sampleFull = some (MisnState.sampleFull, [.boolean false]) :=
  misn_accept_full 2 MisnState.sampleFull rfl (by decide)

/-- Witness of C10: a table of two slots, the second one unused. -/
theorem misn_accept_free_witness :
    ∃ i st1, misn_accept 2 MisnState.sampleFree = some (st1, [.boolean true]) ∧
      i < 2 ∧
      (∃ m, MisnState.sampleFree.player_missions[i]? = some m ∧ m.data = none) ∧
      (∀ j, j < i → ∃ m, MisnState.sampleFree.player_missions[j]? = some m ∧ m.data ≠ none) ∧
      st1.player_missions[i]? = some MisnState.sampleFree.misn ∧
      st1.player_missions.length = 2 ∧
      (∀ j, j ≠ i → st1.player_missions[j]? = MisnState.sampleFree.player_missions[j]?) ∧
      st1.cur_mission = .slot i :=
  misn_accept_free 2 MisnState.sampleFree rfl ⟨Mission.zero, by decide, rfl⟩ rfl

/-! ## `misn_run` and `misn_finish` -/

/-- Moving the slots after `i` down by one removes slot `i` and leaves the
last slot of the table where it is, so the table ends with its former last
slot twice (or with slot `i` itself when `i` is the last slot). -/
theorem mission_memmove_down (slots : List Mission) (i : Nat) (hi : i < slots.length) :
    mission_memmove slots i (i + 1) (slots.length - i - 1)
      = slots.eraseIdx i ++ slots.drop (slots.length - 1) := by
  have h1 : (slots.drop (i + 1)).take (slots.length - i - 1) = slots.drop (i + 1) :=
    List.take_of_length_le (by simp; omega)
  have h2 : i + (slots.length - i - 1) = slots.length - 1 := by omega
  rw [mission_memmove, h1, h2, List.eraseIdx_eq_take_drop_succ]

/-- The removal in `misn_run` when the current mission is slot `i` of a table
of `MISSION_MAX` slots: `mission_cleanup` on the slot, then the `memmove`. -/
theorem misn_run_delete_slot (env : MisnEnv) (st : MisnState) (i : Nat) (m : Mission)
    (hlen : st.player_missions.length = env.MISSION_MAX)
    (hm : st.player_missions[i]? = some m)
    (hcur : st.cur_mission = .slot i) (hdel : st.misn_delete ≠ 0) :
    misn_run_delete env st
      = some ({ st with player_missions :=
                  (mission_memmove (st.player_missions.set i (env.mission_cleanup m)) i (i + 1)
                    (env.MISSION_MAX - i - 1)) },
              [.mission_cleanup m]) := by
  have hi : i < env.MISSION_MAX := by
    rw [← hlen]
    exact (List.getElem?_eq_some.mp hm).1
  have hlen1 : (st.player_missions.set i (env.mission_cleanup m)).length = env.MISSION_MAX := by
    simp [hlen]
  simp only [misn_run_delete, hdel, hcur, hm, ne_eq, not_false_eq_true, if_true, hi, hlen1,
    le_refl]

/-- The table after the removal of a slot `i` that is not the last one: slot
`i` is removed, the slots after it move down by one, and the last slot keeps
its content. -/
theorem mission_memmove_set (env : MisnEnv) (slots : List Mission) (i : Nat) (m : Mission)
    (hlen : slots.length = env.MISSION_MAX) (hi : i + 1 < env.MISSION_MAX) :
    mission_memmove (slots.set i m) i (i + 1) (env.MISSION_MAX - i - 1)
      = slots.eraseIdx i ++ slots.drop (env.MISSION_MAX - 1) := by
  have hlen1 : (slots.set i m).length = env.MISSION_MAX := by simp [hlen]
  have hmm := mission_memmove_down (slots.set i m) i (by rw [hlen1]; omega)
  rw [hlen1] at hmm
  have he : (slots.set i m).eraseIdx i = slots.eraseIdx i := by
    rw [List.eraseIdx_eq_take_drop_succ, List.eraseIdx_eq_take_drop_succ,
      List.drop_set_of_lt _ _ (Nat.lt_succ_self i)]
    congr 1
    apply List.ext_getElem?
    intro k
    rw [List.getElem?_take, List.getElem?_take]
    split
    · rw [List.getElem?_set_ne (by omega)]
    · rfl
  have hd : (slots.set i m).drop (env.MISSION_MAX - 1) = slots.drop (env.MISSION_MAX - 1) :=
    List.drop_set_of_lt _ _ (by omega)
  rw [hmm, he, hd]

/-- The calls `misn_finish` makes, with and without a boolean argument. -/
theorem misn_finish_calls (env : MisnEnv) (st : MisnState) (m : Mission) (d : MissionData)
    (hcur : st.deref st.cur_mission = some m) (hd : m.data = some d) :
    (∀ (b : Bool) (rest : List LuaValue),
      misn_finish env st (.boolean b :: rest)
        = some ({ st with misn_delete := 1 },
            (if b = true ∧ mis_isFlag d env.MISSION_UNIQUE = true
              then [.player_missionFinished (env.mission_getID d.name)] else []),
            .string "Mission Done")) ∧
    (∀ L : List LuaValue, (∀ b, L.head? ≠ some (.boolean b)) →
      misn_finish env st L = some (st, [], .string "Mission Done")) := by
  constructor
  · intro b rest
    cases b with
    | false => simp [misn_finish, lua_toboolean]
    | true =>
      by_cases hu : mis_isFlag d env.MISSION_UNIQUE = true
      · simp [misn_finish, lua_toboolean, hcur, hd, hu]
      · simp [misn_finish, lua_toboolean, hcur, hd, hu]
  · intro L hL
    unfold misn_finish
    split
    · rename_i b hb
      exact absurd hb (hL b)
    · rfl

/-- C12: `misn.finish(b)` with a boolean `b`, called while the current
mission has the template `d`, calls `player_missionFinished` with the id of
the template exactly when `b` is true and the template has the flag
`MISSION_UNIQUE`, and makes no other call; `misn.finish()` without a boolean
argument makes no call at all. -/
theorem misn_finish_records (env : MisnEnv) (st : MisnState) (m : Mission) (d : MissionData)
    (hcur : st.deref st.cur_mission = some m) (hd : m.data = some d) :
    (∀ (b : Bool) (rest : List LuaValue),
      misn_finish env st (.boolean b :: rest)
        = some ({ st with misn_delete := 1 },
            (if b = true ∧ mis_isFlag d env.MISSION_UNIQUE = true
              then [.player_missionFinished (env.mission_getID d.name)] else []),
            .string "Mission Done")) ∧
    (∀ L : List LuaValue, (∀ b, L.head? ≠ some (.boolean b)) →
      misn_finish env st L = some (st, [], .string "Mission Done")) :=
  misn_finish_calls env st m d hcur hd

/-- Witness of C12: the current mission is Rescue, whose template is
unique; `misn.finish(true)` records the template id 6, `misn.finish(false)`
records nothing. -/
theorem misn_finish_records_witness :
    misn_finish MisnEnv.sample MisnState.sampleUnique [.boolean true]
      = some ({ MisnState.sampleUnique with misn_delete := 1 },
          [.player_missionFinished 6], .string "Mission Done") ∧
    misn_finish MisnEnv.sample MisnState.sampleUnique [.boolean false]
      = some ({ MisnState.sampleUnique with misn_delete := 1 }, [],
          .string "Mission Done") :=
  ⟨(misn_finish_records MisnEnv.sample MisnState.sampleUnique _ ⟨"Rescue", 1⟩ rfl rfl).1
      true [],
   (misn_finish_records MisnEnv.sample MisnState.sampleUnique _ ⟨"Rescue", 1⟩ rfl rfl).1
      false []⟩

/-- C11: evaluation of `misn_run` on the full table `[X, Y]` of capacity 2 when
the mission X in slot 0 calls `misn.finish(true)`. The `memmove` copies Y to
slot 0 and nothing clears slot 1: the table afterwards is `[Y, Y]`, two
occupied slots with Y in both, not `[Y]`. -/
theorem misn_run_finish_full_table :
    misn_run LuaConv.decimal MisnEnv.sample MisnState.sampleFull (.slot 0)
        (.finish [.boolean true])
      = some ({ MisnState.sampleFull with
                  player_missions := [Mission.sample 2 "Y", Mission.sample 2 "Y"],
                  cur_mission := .NULL, misn_delete := 1 },
              [.mission_cleanup (Mission.sample 1 "X")], 1) := by
  decide

/-- C13: evaluation of `misn_run` on the three outcomes of the entry point.
A normal return gives 0 and the payload "Mission Done" gives 1, but the
payload "boom" gives 2, the status `LUA_ERRRUN` of `lua_pcall`, and not -1. -/
theorem misn_run_return_values :
    (misn_run LuaConv.decimal MisnEnv.sample MisnState.sampleFull (.slot 0) .ret).map (·.2.2)
      = some 0 ∧
    (misn_run LuaConv.decimal MisnEnv.sample MisnState.sampleFull (.slot 0)
        (.error (.string "Mission Done"))).map (·.2.2) = some 1 ∧
    (misn_run LuaConv.decimal MisnEnv.sample MisnState.sampleFull (.slot 0)
        (.error (.string "boom"))).map (·.2.2) = some 2 := by
  decide

/-- The value `misn_run` returns for an error whose payload is a string other
than "Mission Done" (as a string of C), when the mission has an execution
context: the status of `lua_pcall`. -/
theorem misn_run_error_status (cv : LuaConv) (env : MisnEnv) (st : MisnState)
    (pmisn : MissionPtr) (m : Mission) (d : MissionData) (l : Nat) (s : String)
    (hm : st.deref pmisn = some m) (hd : m.data = some d) (hL : m.L = some l)
    (hs : c_str s ≠ "Mission Done") :
    misn_run cv env st pmisn (.error (.string s))
      = some ({ st with cur_mission := .NULL, misn_delete := 0 }, [.WARN], LUA_ERRRUN) := by
  have hm1 : MisnState.deref { st with cur_mission := pmisn, misn_delete := 0 } pmisn
      = some m := by
    cases pmisn <;> exact hm
  simp [misn_run, hm, hL, lua_pcall, misn_run_ret, lua_isstring, lua_tostring, hs, hm1, hd,
    misn_run_delete]

/-- A candidate that calls `misn.accept()` and then `misn.finish(true)` in the
same call of `misn_run`: `misn.accept` has cleared the object that `misn`
points at, so the read of the error object through `misn->L` is undefined. -/
theorem misn_run_accept_finish_undefined :
    misn_run LuaConv.decimal MisnEnv.sample MisnState.sampleFree .misn
        (.accept (.finish [.boolean true]) .ret) = none := by
  decide

/-! ## The libraries of a conditional context -/

/-- C15: the conditional tables are restrictions of the interactive ones.
`var_cond_methods` binds exactly `peek`, `player_cond_methods` exactly
`name`, `ship`, `getFaction` and `getRating`; every pair of a conditional
table is in the interactive table; `misn_loadCondLibs` registers, from this
file, the two conditional tables only (none of `misn_methods`,
`hook_methods`, `pilot_methods`, `var_methods`, `player_methods`); and the
functions of this file that it binds are `var_peek`, `player_getname`,
`player_shipname`, `player_getFaction` and `player_getRating`, none of which
writes the variable stack, the player or the mission table. -/
theorem misn_loadCondLibs_restricted :
    var_cond_methods.map (·.1) = ["peek"] ∧
    player_cond_methods.map (·.1) = ["name", "ship", "getFaction", "getRating"] ∧
    (∀ p ∈ var_cond_methods, p ∈ var_methods) ∧
    (∀ p ∈ player_cond_methods, p ∈ player_methods) ∧
    cond_registered_tables
      = [("var", var_cond_methods), ("player", player_cond_methods)] ∧
    (∀ t ∈ cond_registered_tables,
      t.2 ≠ misn_methods ∧ t.2 ≠ hook_methods ∧ t.2 ≠ pilot_methods ∧
      t.2 ≠ var_methods ∧ t.2 ≠ player_methods) ∧
    cond_functions
      = [.var_peek, .player_getname, .player_shipname, .player_getFaction,
         .player_getRating] ∧
    (∀ f ∈ cond_functions, CFunction.writes f = false) := by
  decide

/-! ## Hooks -/

/-- On a table of `n` slots the loop of `hook_generic` tells whether a slot
has the id. -/
theorem hook_generic_scan_any (id : Nat) (pm : List Mission) :
    hook_generic_scan id pm pm.length = some (pm.any (fun m => decide (m.id = id))) := by
  induction pm with
  | nil => rfl
  | cons m ms ih =>
    by_cases h : m.id = id
    · simp [hook_generic_scan, h]
    · simp [hook_generic_scan, h, ih]

/-- C16 (amended): on a table of `MISSION_MAX` slots with a current mission
`cur`, `hook_generic` returns 0 and does not call `hook_add` when no slot has
the id of `cur`; when a slot has the id and the last argument is a string (or
a number), it makes the one call `hook_add( cur->id, func, stack )` with the
last argument as `func` and returns its result; when a slot has the id but
no argument is passed or the last argument is no string, it returns 0 and
does not call `hook_add`. -/
theorem hook_generic_registers (cv : LuaConv) (env : MisnEnv) (st : MisnState)
    (L : List LuaValue) (stack : String) (cur : Mission)
    (hlen : st.player_missions.length = env.MISSION_MAX)
    (hcur : st.deref st.cur_mission = some cur) :
    ((∀ m ∈ st.player_missions, m.id ≠ cur.id) →
      ∃ calls, hook_generic cv env st L stack = some (calls, 0) ∧ no_hook_add calls) ∧
    ((∃ m ∈ st.player_missions, m.id = cur.id) →
      (∀ a, L.getLast? = some a → lua_isstring a = true →
        hook_generic cv env st L stack
          = some ([.hook_add cur.id (lua_tostring cv a) stack],
              env.hook_add cur.id (lua_tostring cv a) stack)) ∧
      (L = [] → hook_generic cv env st L stack = some ([.NLUA_DEBUG], 0)) ∧
      (∀ a, L.getLast? = some a → lua_isstring a = false →
        hook_generic cv env st L stack = some ([.NLUA_INVALID_PARAMETER], 0))) := by
  have hscan := hook_generic_scan_any cur.id st.player_missions
  rw [hlen] at hscan
  refine ⟨fun hno => ?_, fun hyes => ⟨fun a ha hs => ?_, fun hL => ?_, fun a ha hs => ?_⟩⟩
  · have hany : st.player_missions.any (fun m => decide (m.id = cur.id)) = false := by
      rw [List.any_eq_false]
      intro m hm
      simpa using hno m hm
    rw [hany] at hscan
    unfold hook_generic
    cases hl : L.getLast? with
    | none => exact ⟨_, rfl, fun _ _ _ h => by simp at h⟩
    | some a =>
      by_cases hs : lua_isstring a = true
      · simp only [hs, if_true, hcur, hscan]
        exact ⟨_, rfl, fun _ _ _ h => by simp at h⟩
      · simp only [hs, if_false]
        exact ⟨_, rfl, fun _ _ _ h => by simp at h⟩
  · have hany : st.player_missions.any (fun m => decide (m.id = cur.id)) = true := by
      rw [List.any_eq_true]
      obtain ⟨m, hm, hid⟩ := hyes
      exact ⟨m, hm, by simpa using hid⟩
    rw [hany] at hscan
    simp only [hook_generic, ha, hs, if_true, hcur, hscan]
  · subst hL
    rfl
  · simp [hook_generic, ha, hs]

/-- Witness of C16: the mission X of slot 0 of the table `[X, Y]` is the
current mission and registers the function `on_land` for "land". -/
theorem hook_generic_registers_witness :
    hook_generic LuaConv.decimal MisnEnv.sample
        { MisnState.sampleFull with cur_mission := .slot 0 } [.string "on_land"] "land"
      = some ([.hook_add 1 "on_land" "land"], 1) :=
  ((hook_generic_registers LuaConv.decimal MisnEnv.sample
      { MisnState.sampleFull with cur_mission := .slot 0 } [.string "on_land"] "land"
      (Mission.sample 1 "X") rfl rfl).2 ⟨Mission.sample 1 "X", by decide, rfl⟩).1
    (.string "on_land") rfl rfl

/-- Counterexample to C16 as stated: the mission X of slot 0 of the table
`[X, Y]` is the current mission, so a slot has its id, and `hook.land()` is
called with no argument: `hook_generic` returns 0 and does not call
`hook_add`. -/
theorem hook_generic_no_argument :
    (∃ m ∈ MisnState.sampleFull.player_missions, m.id = (Mission.sample 1 "X").id) ∧
    hook_generic LuaConv.decimal MisnEnv.sample
        { MisnState.sampleFull with cur_mission := .slot 0 } [] "land"
      = some ([.NLUA_DEBUG], 0) := by
  decide

/-- With a current mission and a table of `MISSION_MAX` slots `hook_generic`
is defined. -/
theorem hook_generic_defined (cv : LuaConv) (env : MisnEnv) (st : MisnState)
    (L : List LuaValue) (stack : String) (cur : Mission)
    (hlen : st.player_missions.length = env.MISSION_MAX)
    (hcur : st.deref st.cur_mission = some cur) :
    ∃ calls h, hook_generic cv env st L stack = some (calls, h) := by
  have hscan := hook_generic_scan_any cur.id st.player_missions
  rw [hlen] at hscan
  unfold hook_generic
  cases hl : L.getLast? with
  | none => exact ⟨_, _, rfl⟩
  | some a =>
    by_cases hs : lua_isstring a = true
    · simp only [hs, if_true, hcur, hscan]
      cases st.player_missions.any (fun m => decide (m.id = cur.id)) <;> exact ⟨_, _, rfl⟩
    · simp only [hs, if_false]
      exact ⟨_, _, rfl⟩

/-- C17: `hook.pilot(p, event, ...)` with a pilot id `p` and an event string
that holds no `NUL` (the code reads the event as a string of C). On a table
of `MISSION_MAX` slots with a current mission, the events "death", "board" and
"disable" end with the call of `pilot_addHook` on the pilot `p` with the type
`PILOT_HOOK_DEATH`, `PILOT_HOOK_BOARD` and `PILOT_HOOK_DISABLE`; every other
event string gives, in every state, the one report `NLUA_DEBUG`, with no call
of `hook_add` and none of `pilot_addHook`. -/
theorem hook_pilot_event (cv : LuaConv) (env : MisnEnv) (st : MisnState)
    (a1 : LuaValue) (event : String) (rest : List LuaValue) (p : Nat)
    (hnum : lua_isnumber cv a1 = true) (hp : double_to_uint (lua_tonumber cv a1) = some p)
    (hnul : NUL ∉ event.toList) :
    (∀ cur, st.player_missions.length = env.MISSION_MAX →
      st.deref st.cur_mission = some cur →
      (event = "death" → ∃ calls h, hook_pilot cv env st (a1 :: .string event :: rest)
          = some (calls ++ [.pilot_addHook p .PILOT_HOOK_DEATH h])) ∧
      (event = "board" → ∃ calls h, hook_pilot cv env st (a1 :: .string event :: rest)
          = some (calls ++ [.pilot_addHook p .PILOT_HOOK_BOARD h])) ∧
      (event = "disable" → ∃ calls h, hook_pilot cv env st (a1 :: .string event :: rest)
          = some (calls ++ [.pilot_addHook p .PILOT_HOOK_DISABLE h]))) ∧
    (event ≠ "death" → event ≠ "board" → event ≠ "disable" →
      hook_pilot cv env st (a1 :: .string event :: rest) = some [.NLUA_DEBUG] ∧
      no_hook_add [.NLUA_DEBUG] ∧ no_pilot_addHook [.NLUA_DEBUG]) := by
  have hc := c_str_of_not_mem event hnul
  refine ⟨fun cur hlen hcur => ?_,
    fun h1 h2 h3 => ⟨?_, fun _ _ _ hx => by simp at hx, fun _ _ _ hx => by simp at hx⟩⟩
  · obtain ⟨calls, h, hg⟩ :=
      hook_generic_defined cv env st (a1 :: .string event :: rest) event cur hlen hcur
    refine ⟨fun he => ⟨calls, h, ?_⟩, fun he => ⟨calls, h, ?_⟩, fun he => ⟨calls, h, ?_⟩⟩
    · simp only [hook_pilot, hnum, hp, lua_isstring, lua_tostring, hc, if_true, hg]
      subst he
      rfl
    · simp only [hook_pilot, hnum, hp, lua_isstring, lua_tostring, hc, if_true, hg]
      subst he
      rfl
    · simp only [hook_pilot, hnum, hp, lua_isstring, lua_tostring, hc, if_true, hg]
      subst he
      rfl
  · simp only [hook_pilot, hnum, hp, lua_isstring, lua_tostring, hc, if_true, hook_pilot_type,
      h1, h2, h3, if_false]

/-- Witness of C17: the mission X of slot 0 of the table `[X, Y]` calls
`hook.pilot(7, "board", "on_board")`, then `hook.pilot(7, "explode",
"on_board")`. -/
theorem hook_pilot_event_witness :
    (∃ calls h, hook_pilot LuaConv.decimal MisnEnv.sample
        { MisnState.sampleFull with cur_mission := .slot 0 }
        [.number 7, .string "board", .string "on_board"]
        = some (calls ++ [.pilot_addHook 7 .PILOT_HOOK_BOARD h])) ∧
    hook_pilot LuaConv.decimal MisnEnv.sample
        { MisnState.sampleFull with cur_mission := .slot 0 }
        [.number 7, .string "explode", .string "on_board"] = some [.NLUA_DEBUG] ∧
    hook_pilot LuaConv.decimal MisnEnv.sample
        { MisnState.sampleFull with cur_mission := .slot 0 }
        [.number 7, .string "board", .string "on_board"]
      = some [.hook_add 1 "on_board" "board", .pilot_addHook 7 .PILOT_HOOK_BOARD 1] :=
  ⟨((hook_pilot_event LuaConv.decimal MisnEnv.sample
      { MisnState.sampleFull with cur_mission := .slot 0 } (.number 7) "board"
      [.string "on_board"] 7 rfl (by decide) (by decide)).1
        (Mission.sample 1 "X") rfl rfl).2.1 rfl,
   ((hook_pilot_event LuaConv.decimal MisnEnv.sample
      { MisnState.sampleFull with cur_mission := .slot 0 } (.number 7) "explode"
      [.string "on_board"] 7 rfl (by decide) (by decide)).2
      (by decide) (by decide) (by decide)).1,
   by decide⟩

/-- An event string with a `NUL` inside is read up to the `NUL`: the event
`death`, `NUL`, `junk` is the event "death" for `strcmp`, and the hook is
registered as a death hook. -/
theorem hook_pilot_event_embedded_nul :
    hook_pilot LuaConv.decimal MisnEnv.sample
        { MisnState.sampleFull with cur_mission := .slot 0 }
        [.number 7, .string (String.mk ("death".toList ++ NUL :: "junk".toList)),
          .string "on_death"]
      = some [.hook_add 1 "on_death" "death", .pilot_addHook 7 .PILOT_HOOK_DEATH 1] := by
  decide

/-! ## `misn_setMarker` -/

/-- C18: evaluation of `misn.setMarker()` with no argument when the current
mission X has the marker "Sol". The marker string is freed but the field
`sys_marker` is not written, so the mission still has its marker (now a
pointer to freed memory); `mission_sysMark` is called once, and then the
test for a system argument fails and `NLUA_INVALID_PARAMETER` is reported. -/
theorem misn_setMarker_no_argument :
    misn_setMarker MisnState.sampleMarked []
      = some (MisnState.sampleMarked,
          [.free "Sol", .mission_sysMark, .NLUA_INVALID_PARAMETER]) ∧
    (MisnState.sampleMarked.deref MisnState.sampleMarked.cur_mission).map (·.sys_marker)
      = some (some "Sol") := by
  decide

/-- `misn.setMarker()` with no argument, whatever the current mission: the
state is returned as it is and the last call is the report
`NLUA_INVALID_PARAMETER`. -/
theorem misn_setMarker_nil (st : MisnState) (m : Mission)
    (hcur : st.deref st.cur_mission = some m) :
    ∃ calls, misn_setMarker st []
      = some (st, calls ++ [.mission_sysMark, .NLUA_INVALID_PARAMETER]) := by
  cases hs : m.sys_marker with
  | none => exact ⟨[], by simp [misn_setMarker, hcur, hs]⟩
  | some s => exact ⟨[.free s], by simp [misn_setMarker, hcur, hs]⟩

/-- `misn.setMarker(sys)` with a system argument: the marker of the current
mission becomes the name of the system and `mission_sysMark` is called
once, with no other call. -/
theorem misn_setMarker_system (st st1 : MisnState) (m : Mission) (name : String)
    (rest : List LuaArg) (hcur : st.deref st.cur_mission = some m)
    (hst : st.assign { m with sys_marker := some name } st.cur_mission = some st1) :
    misn_setMarker st (.system name :: rest) = some (st1, [.mission_sysMark]) := by
  simp [misn_setMarker, hcur, hst]

/-! ## The order of the variables after `var_load` -/

/-- An example of the order of first occurrence. -/
theorem first_occurrences_example :
    first_occurrences ["a", "b", "a", "c", "b"] = ["a", "b", "c"] := by
  decide

/-- The names after an update: unchanged when the name is present, with the
new name at the end when it is not. -/
theorem names_upsert (v : misn_var) (vs : List misn_var) :
    (var_upsert v vs).map (·.name)
      = if v.name ∈ vs.map (·.name) then vs.map (·.name) else vs.map (·.name) ++ [v.name] := by
  induction vs with
  | nil => simp [var_upsert]
  | cons w ws ih =>
    simp only [var_upsert]
    by_cases h : v.name = w.name
    · simp [h]
    · have h' : ¬ w.name = v.name := fun e => h e.symm
      simp only [h, if_false, List.map_cons, ih, List.mem_cons, false_or]
      split <;> simp

/-- A variable after an update is the new one or an old one. -/
theorem mem_upsert (v w : misn_var) (vs : List misn_var) (h : w ∈ var_upsert v vs) :
    w = v ∨ w ∈ vs := by
  induction vs with
  | nil => simpa [var_upsert] using h
  | cons u us ih =>
    simp only [var_upsert] at h
    split at h
    · rcases List.mem_cons.mp h with h1 | h1
      · exact Or.inl h1
      · exact Or.inr (List.mem_cons_of_mem _ h1)
    · rcases List.mem_cons.mp h with h1 | h1
      · exact Or.inr (h1 ▸ List.mem_cons_self _ _)
      · rcases ih h1 with h2 | h2
        · exact Or.inl h2
        · exact Or.inr (List.mem_cons_of_mem _ h2)

/-- The names after loading records on top of the variables `acc`: the names
of `acc`, then the new names in the order of their first occurrence. -/
theorem names_load_list (curs : List xmlVar) (acc : List misn_var) :
    (curs.foldl var_load_list acc).map (·.name)
      = acc.map (·.name)
        ++ (first_occurrences ((curs.filter (·.elem = "var")).map (·.name))).filter
            (fun x => decide (x ∉ acc.map (·.name))) := by
  induction curs generalizing acc with
  | nil => simp [first_occurrences]
  | cons c cs ih =>
    rw [List.foldl_cons, ih]
    by_cases hc : c.elem = "var"
    · obtain ⟨d, hd⟩ := Option.ne_none_iff_exists'.mp (var_load_data_ne_none c.type c.text)
      have hl : var_load_list acc c = var_upsert ⟨c.name, d⟩ acc := by
        simp [var_load_list, hc, hd]
      rw [hl, names_upsert]
      simp only [hc, decide_True, List.filter_cons_of_pos, List.map_cons, first_occurrences]
      by_cases hin : c.name ∈ acc.map (·.name)
      · simp only [hin, if_true, not_true_eq_false, decide_False, List.filter_filter]
        rw [List.filter_cons_of_neg (by simp [hin])]
        congr 1
        rw [List.filter_filter]
        apply List.filter_congr
        intro x _
        by_cases hx : x = c.name
        · subst hx
          simp [hin]
        · simp [hx]
      · simp only [hin, if_false, not_false_eq_true, decide_True, List.filter_filter]
        rw [List.filter_cons_of_pos (by simp [hin]), List.append_assoc, List.singleton_append]
        congr 2
        rw [List.filter_filter]
        apply List.filter_congr
        intro x _
        by_cases hx : x = c.name
        · subst hx
          simp
        · simp [hx]
    · have hl : var_load_list acc c = acc := by simp [var_load_list, hc]
      rw [hl]
      simp [hc]

/-- A variable after loading records comes from `acc` or from a `var` record
that has its name and decodes to its data. -/
theorem mem_load_list (curs : List xmlVar) (acc : List misn_var) (w : misn_var)
    (h : w ∈ curs.foldl var_load_list acc) :
    w ∈ acc ∨ ∃ cur ∈ curs, cur.elem = "var" ∧ cur.name = w.name ∧
      var_load_data cur.type cur.text = some w.d := by
  induction curs generalizing acc with
  | nil => exact Or.inl h
  | cons c cs ih =>
    rw [List.foldl_cons] at h
    rcases ih _ h with h1 | ⟨cur, hcur, hprop⟩
    · unfold var_load_list at h1
      split at h1
      · rename_i hc
        cases hd : var_load_data c.type c.text with
        | none => exact absurd hd (var_load_data_ne_none _ _)
        | some d =>
          rw [hd] at h1
          rcases mem_upsert _ _ _ h1 with h2 | h2
          · subst h2
            exact Or.inr ⟨c, List.mem_cons_self _ _, hc, rfl, hd⟩
          · exact Or.inl h2
      · exact Or.inl h1
    · exact Or.inr ⟨cur, List.mem_cons_of_mem _ hcur, hprop⟩

/-- C20: `var_load` on a well-formed stack, whatever variables `vs` it held,
is defined and leaves a stack whose variables come from the document alone:
their names are the names of the `var` records in the order of their first
occurrence, and each variable has the name of a `var` record of the document
and the data that record decodes to. -/
theorem var_load_document_order (vs : List misn_var) (parent : List xmlNode) :
    ∃ ws, var_load (VarStack.ofList vs) parent = some (VarStack.ofList ws) ∧
      ws.map (·.name) = first_occurrences (var_document_names parent) ∧
      ∀ w ∈ ws, ∃ cur ∈ var_load_records parent, cur.elem = "var" ∧ cur.name = w.name ∧
        var_load_data cur.type cur.text = some w.d := by
  refine ⟨_, var_load_ofList vs parent, ?_, ?_⟩
  · rw [names_load_list]
    simp [var_document_names]
  · intro w hw
    rcases mem_load_list _ _ w hw with h | h
    · cases h
    · exact h

/-! ## `pilot_addFleet` -/

/-- As many ids as calls of `pilot_create`. -/
theorem length_fleet_ids {V σ : Type} (env : FleetEnv V σ) (stack : σ)
    (spawns : List (PilotSpawn V)) : (fleet_ids env stack spawns).length = spawns.length := by
  induction spawns generalizing stack with
  | nil => rfl
  | cons sp rest ih => simp [fleet_ids, ih]

/-- The loop of `pilot_addFleet` from any of its states: the calls of
`pilot_create` it adds are those of the included members, in member order,
each with the ship, name and faction of its member and the AI by priority,
and the pairs it adds to the table have the keys `j + 1, j + 2, ...` and the
ids returned by these calls. -/
theorem pilot_addFleet_loop_spec {V σ : Type} (env : FleetEnv V σ) (draws : Nat → Int)
    (flt : Fleet) (fltai : Option String) (members : List FleetPilot) (s : FleetLoop V σ) :
    ∃ news : List (PilotSpawn V),
      (pilot_addFleet_loop env draws flt fltai members s).created = s.created ++ news ∧
      news.map (fun sp => (sp.ship, sp.name, sp.faction, sp.ai))
        = (fleet_included draws members s.rng).map
            (fun plt => (plt.ship, plt.name, flt.faction, fleet_member_ai env fltai flt plt)) ∧
      (pilot_addFleet_loop env draws flt fltai members s).table
        = s.table ++ (List.range' (s.j + 1) news.length).zip (fleet_ids env s.stack news) := by
  induction members generalizing s with
  | nil => exact ⟨[], by simp [pilot_addFleet_loop, fleet_included, fleet_ids]⟩
  | cons plt rest ih =>
    by_cases h : draws s.rng ≤ plt.chance
    · simp only [pilot_addFleet_loop, h, if_true, fleet_included]
      obtain ⟨news, hc, hm, ht⟩ := ih (pilot_addFleet_body env draws flt fltai plt s)
      refine ⟨pilot_addFleet_spawn env draws flt fltai plt s :: news, ?_, ?_, ?_⟩
      · rw [hc]
        simp [pilot_addFleet_body]
      · simp only [List.map_cons]
        rw [hm]
        rfl
      · rw [ht]
        simp [pilot_addFleet_body, fleet_ids, List.range'_succ]
    · simp only [pilot_addFleet_loop, h, if_false, fleet_included]
      exact ih { s with rng := s.rng + 1 }

/-- The AI override that `pilot_addFleet` reads from the arguments of
`pilot.add(name)` and `pilot.add(name, ai)`: none, and `ai`. -/
theorem pilot_addFleet_fltai_args (cv : LuaConv) (name : String) (override : Option String)
    (hover : ∀ ai, override = some ai → NUL ∉ ai.toList) :
    pilot_addFleet_fltai cv (pilot_add_args name override).tail = override := by
  cases override with
  | none => rfl
  | some ai =>
    simp [pilot_add_args, pilot_addFleet_fltai, lua_isstring, lua_tostring,
      c_str_of_not_mem ai (hover ai rfl)]

/-- C19: `pilot.add(name)` and `pilot.add(name, ai)` for a fleet name and an
AI name without `NUL` inside, where `fleet_get` finds the fleet template `flt`
under the name, with any sequence of draws. The call returns a table; the
calls of `pilot_create` are those of the members whose inclusion draw is at
most their chance, in member order, each with the ship, the name and the
faction of its member and with the AI of the override `ai` if one was
passed, else of the member if it has one, else of the fleet; the keys of the
table are 1, ..., k for the k pilots created and its values are the ids that
`pilot_create` returned, in the order of the calls. -/
theorem pilot_addFleet_spawns {V σ : Type} (cv : LuaConv) (env : FleetEnv V σ)
    (draws : Nat → Int) (rng : Nat) (stack : σ) (name : String) (override : Option String)
    (flt : Fleet) (hname : NUL ∉ name.toList)
    (hover : ∀ ai, override = some ai → NUL ∉ ai.toList)
    (hflt : env.fleet_get name = some flt) :
    ∃ r, pilot_addFleet cv env draws rng stack (pilot_add_args name override) = .ok r ∧
      r.created.map (fun sp => (sp.ship, sp.name, sp.faction, sp.ai))
        = (fleet_included draws flt.pilots (rng + 2)).map
            (fun plt => (plt.ship, plt.name, flt.faction,
              fleet_member_ai env override flt plt)) ∧
      r.table.map (·.1) = List.range' 1 r.created.length ∧
      r.table.map (·.2) = fleet_ids env stack r.created := by
  obtain ⟨news, hc, hm, ht⟩ := pilot_addFleet_loop_spec env draws flt override flt.pilots
    { rng := rng + 2, vp := env.vect_pset (draws rng) (draws (rng + 1)), j := 0,
      stack := stack, created := [], table := [] }
  have hargs : pilot_add_args name override
      = .string name :: (pilot_add_args name override).tail := by
    cases override <;> rfl
  have hrun : pilot_addFleet cv env draws rng stack (pilot_add_args name override)
      = .ok (pilot_addFleet_loop env draws flt override flt.pilots
          { rng := rng + 2, vp := env.vect_pset (draws rng) (draws (rng + 1)), j := 0,
            stack := stack, created := [], table := [] }) := by
    rw [hargs]
    simp only [pilot_addFleet, lua_isstring, lua_tostring, if_true,
      c_str_of_not_mem name hname, hflt, pilot_addFleet_fltai_args cv name override hover]
  refine ⟨_, hrun, ?_, ?_, ?_⟩
  · rw [hc, List.nil_append]
    exact hm
  · rw [ht, hc, List.nil_append, List.nil_append]
    exact List.map_fst_zip _ _ (by simp [length_fleet_ids])
  · rw [ht, hc, List.nil_append, List.nil_append]
    exact List.map_snd_zip _ _ (by simp [length_fleet_ids])

/-- Witness of C19: `pilot.add("Pirates")` and `pilot.add("Pirates",
"escort")` on the sample fleet with the sample draws. -/
theorem pilot_addFleet_spawns_witness :
    (∃ r, pilot_addFleet LuaConv.decimal FleetEnv.sample draws_sample 0 0
        (pilot_add_args "Pirates" none) = .ok r ∧
      r.created.map (fun sp => (sp.ship, sp.name, sp.faction, sp.ai))
        = (fleet_included draws_sample Fleet.sample.pilots (0 + 2)).map
            (fun plt => (plt.ship, plt.name, Fleet.sample.faction,
              fleet_member_ai FleetEnv.sample none Fleet.sample plt)) ∧
      r.table.map (·.1) = List.range' 1 r.created.length ∧
      r.table.map (·.2) = fleet_ids FleetEnv.sample 0 r.created) ∧
    (∃ r, pilot_addFleet LuaConv.decimal FleetEnv.sample draws_sample 0 0
        (pilot_add_args "Pirates" (some "escort")) = .ok r ∧
      r.created.map (fun sp => (sp.ship, sp.name, sp.faction, sp.ai))
        = (fleet_included draws_sample Fleet.sample.pilots (0 + 2)).map
            (fun plt => (plt.ship, plt.name, Fleet.sample.faction,
              fleet_member_ai FleetEnv.sample (some "escort") Fleet.sample plt)) ∧
      r.table.map (·.1) = List.range' 1 r.created.length ∧
      r.table.map (·.2) = fleet_ids FleetEnv.sample 0 r.created) :=
  ⟨pilot_addFleet_spawns LuaConv.decimal FleetEnv.sample draws_sample 0 0 "Pirates" none
      Fleet.sample (by decide) (fun ai h => nomatch h) rfl,
   pilot_addFleet_spawns LuaConv.decimal FleetEnv.sample draws_sample 0 0 "Pirates"
      (some "escort") Fleet.sample (by decide)
      (fun ai h => by cases h; decide) rfl⟩

/-- The sample call spawns the first and the third member: the table is
`{100, 101}` and the pilots have the default AI of the fleet; with the
override "escort" both have that AI. -/
theorem pilot_addFleet_sample_table :
    (match pilot_addFleet LuaConv.decimal FleetEnv.sample draws_sample 0 0
        [.string "Pirates"] with
      | .ok r => (r.table, r.created.map (fun sp => (sp.name, sp.ai)))
      | .error _ => ([], []))
      = ([(1, 100), (2, 101)],
         [("Pirate Hyena", some "pirate"), ("Pirate Ancestor", some "pirate")]) ∧
    (match pilot_addFleet LuaConv.decimal FleetEnv.sample draws_sample 0 0
        [.string "Pirates", .string "escort"] with
      | .ok r => r.created.map (fun sp => (sp.name, sp.ai))
      | .error _ => [])
      = [("Pirate Hyena", some "escort"), ("Pirate Ancestor", some "escort")] := by
  decide

/-! ## A hook of a mission that is not in the table -/

/-- When no slot of a table of `MISSION_MAX` slots has the id of the current
mission, `hook_generic` returns 0 and does not call `hook_add`. -/
theorem hook_generic_not_in_table (cv : LuaConv) (env : MisnEnv) (st : MisnState)
    (L : List LuaValue) (stack : String) (cur : Mission)
    (hlen : st.player_missions.length = env.MISSION_MAX)
    (hcur : st.deref st.cur_mission = some cur)
    (hno : ∀ m ∈ st.player_missions, m.id ≠ cur.id) :
    ∃ calls, hook_generic cv env st L stack = some (calls, 0) ∧ no_hook_add calls := by
  have hscan := hook_generic_scan_any cur.id st.player_missions
  rw [hlen] at hscan
  have hany : st.player_missions.any (fun m => decide (m.id = cur.id)) = false := by
    rw [List.any_eq_false]
    intro m hm
    simpa using hno m hm
  rw [hany] at hscan
  unfold hook_generic
  cases hl : L.getLast? with
  | none => exact ⟨_, rfl, fun _ _ _ h => by simp at h⟩
  | some a =>
    by_cases hs : lua_isstring a = true
    · simp only [hs, if_true, hcur, hscan]
      exact ⟨_, rfl, fun _ _ _ h => by simp at h⟩
    · simp only [hs, if_false]
      exact ⟨_, rfl, fun _ _ _ h => by simp at h⟩

/-- C21: the current mission is a candidate (the object outside the table)
whose id is in no slot of a table of `MISSION_MAX` slots, and it calls
`hook.pilot(p, event, ...)` with a pilot id `p` and the name `event` of the
hook type `type`. No call of `hook_add` is made, but the call ends with
`pilot_addHook( pilot_get(p), type, 0 )`: the id 0 that `hook_generic`
returns is attached to the pilot, which the claim excludes. -/
theorem hook_pilot_candidate (cv : LuaConv) (env : MisnEnv) (st : MisnState)
    (a1 : LuaValue) (event : String) (rest : List LuaValue) (p : Nat) (type : PilotHook)
    (hnum : lua_isnumber cv a1 = true) (hp : double_to_uint (lua_tonumber cv a1) = some p)
    (htype : hook_pilot_type event = some type)
    (hlen : st.player_missions.length = env.MISSION_MAX)
    (hcur : st.cur_mission = .misn)
    (hno : ∀ m ∈ st.player_missions, m.id ≠ st.misn.id) :
    ∃ calls, hook_pilot cv env st (a1 :: .string event :: rest)
        = some (calls ++ [.pilot_addHook p type 0]) ∧
      no_hook_add calls ∧ ¬ no_pilot_addHook (calls ++ [.pilot_addHook p type 0]) := by
  have hderef : st.deref st.cur_mission = some st.misn := by rw [hcur]; rfl
  obtain ⟨calls, hg, hnh⟩ :=
    hook_generic_not_in_table cv env st (a1 :: .string event :: rest) event st.misn
      hlen hderef hno
  have hc : c_str event = event := by
    apply c_str_of_not_mem
    unfold hook_pilot_type at htype
    split at htype
    · rename_i he
      rw [he]
      decide
    · split at htype
      · rename_i he
        rw [he]
        decide
      · split at htype
        · rename_i he
          rw [he]
          decide
        · cases htype
  refine ⟨calls, ?_, hnh, fun h => h p type 0 (by simp)⟩
  simp only [hook_pilot, hnum, hp, lua_isstring, lua_tostring, hc, if_true, htype, hg]

/-- Witness of C21: the candidate Z (id 3) of the full table `[X, Y]` (ids 1
and 2) calls `hook.pilot(7, "death", "on_death")`: the calls are the warning of
`hook_generic` and `pilot_addHook` with the hook id 0 on the pilot 7. -/
theorem hook_pilot_candidate_witness :
    (∃ calls, hook_pilot LuaConv.decimal MisnEnv.sample MisnState.sampleFull
        [.number 7, .string "death", .string "on_death"]
        = some (calls ++ [.pilot_addHook 7 .PILOT_HOOK_DEATH 0]) ∧
      no_hook_add calls ∧ ¬ no_pilot_addHook (calls ++ [.pilot_addHook 7 .PILOT_HOOK_DEATH 0])) ∧
    hook_pilot LuaConv.decimal MisnEnv.sample MisnState.sampleFull
        [.number 7, .string "death", .string "on_death"]
      = some [.WARN, .pilot_addHook 7 .PILOT_HOOK_DEATH 0] :=
  ⟨hook_pilot_candidate LuaConv.decimal MisnEnv.sample MisnState.sampleFull (.number 7)
      "death" [.string "on_death"] 7 .PILOT_HOOK_DEATH rfl (by decide) rfl rfl rfl (by decide),
    by decide⟩

/-! ## The error object in `misn_run` -/

/-- C23: a mission function that is left by an error whose object is no
string and no number (`lua_isstring` is false: nil, a boolean, a table) makes
`misn_run` compare the null pointer `err` with "Mission Done" in `strcmp`,
which is undefined: `misn_run` gives no result, in every state and for every
mission, so the outcome is not the Error outcome of the claim. -/
theorem misn_run_error_not_string (cv : LuaConv) (env : MisnEnv) (st : MisnState)
    (pmisn : MissionPtr) (payload : LuaValue) (h : lua_isstring payload = false) :
    misn_run cv env st pmisn (.error payload) = none := by
  unfold misn_run
  cases hd : st.deref pmisn with
  | none => rfl
  | some m =>
    cases hL : m.L with
    | none => simp [hL]
    | some l =>
      have hd1 : MisnState.deref { st with cur_mission := pmisn, misn_delete := 0 } pmisn
          = some m := by
        cases pmisn <;> exact hd
      simp [lua_pcall, misn_run_ret, h, hd1, hL]

/-- Witness of C23: the mission X of slot 0 of the table `[X, Y]` runs a
function that raises nil, a table, or a boolean. -/
theorem misn_run_error_not_string_witness :
    misn_run LuaConv.decimal MisnEnv.sample MisnState.sampleFull (.slot 0) (.error .nil) = none ∧
    misn_run LuaConv.decimal MisnEnv.sample MisnState.sampleFull (.slot 0) (.error .other) = none ∧
    misn_run LuaConv.decimal MisnEnv.sample MisnState.sampleFull (.slot 0)
      (.error (.boolean true)) = none ∧
    misn_run LuaConv.decimal MisnEnv.sample MisnState.sampleFull (.slot 0)
      (.error (.string "boom")) = some ({ MisnState.sampleFull with cur_mission := .NULL },
        [.WARN], LUA_ERRRUN) :=
  ⟨misn_run_error_not_string LuaConv.decimal MisnEnv.sample MisnState.sampleFull (.slot 0)
      .nil rfl,
   misn_run_error_not_string LuaConv.decimal MisnEnv.sample MisnState.sampleFull (.slot 0)
      .other rfl,
   misn_run_error_not_string LuaConv.decimal MisnEnv.sample MisnState.sampleFull (.slot 0)
      (.boolean true) rfl,
   by decide⟩

/-! ## The density of the mission table -/

/-- A table without an occupied slot is dense. -/
theorem dense_of_unused (pm : List Mission)
    (h : pm.all (fun x => decide (x.data = none)) = true) : dense pm = true := by
  induction pm with
  | nil => rfl
  | cons m ms ih =>
    simp only [List.all_cons, Bool.and_eq_true, decide_eq_true_eq] at h
    simp only [dense, h.1, if_true, h.2]

/-- A table whose slots are all occupied is dense. -/
theorem dense_of_occupied (pm : List Mission) (h : ∀ m ∈ pm, m.data ≠ none) :
    dense pm = true := by
  induction pm with
  | nil => rfl
  | cons m ms ih =>
    have hm : m.data ≠ none := h m (List.mem_cons_self _ _)
    simp only [dense, hm, if_false]
    exact ih (fun x hx => h x (List.mem_cons_of_mem _ hx))

/-- In a dense table every slot before an occupied one is occupied. -/
theorem dense_occupied_before (pm : List Mission) (hd : dense pm = true) (i j : Nat)
    (m : Mission) (hij : i ≤ j) (hj : pm[j]? = some m) (hm : m.data ≠ none) :
    ∃ x, pm[i]? = some x ∧ x.data ≠ none := by
  induction pm generalizing i j with
  | nil => simp at hj
  | cons a as ih =>
    by_cases ha : a.data = none
    · simp only [dense, ha, if_true, List.all_eq_true, decide_eq_true_eq] at hd
      cases j with
      | zero =>
        simp only [List.getElem?_cons_zero, Option.some.injEq] at hj
        subst hj
        exact absurd ha hm
      | succ j =>
        simp only [List.getElem?_cons_succ] at hj
        exact absurd (hd m (List.mem_iff_getElem?.mpr ⟨j, hj⟩)) hm
    · cases i with
      | zero => exact ⟨a, by simp, ha⟩
      | succ i =>
        cases j with
        | zero => omega
        | succ j =>
          simp only [dense, ha, if_false] at hd
          simp only [List.getElem?_cons_succ] at hj ⊢
          exact ih hd i j (by omega) hj

/-- The scan of `misn_accept` does not go below the index it starts at. -/
theorem misn_accept_scan_ge (pm : List Mission) (n i k : Nat)
    (h : misn_accept_scan pm n i = some k) : i ≤ k := by
  induction pm generalizing n i with
  | nil =>
    cases n with
    | zero => simp only [misn_accept_scan, Option.some.injEq] at h; omega
    | succ n => simp [misn_accept_scan] at h
  | cons m ms ih =>
    cases n with
    | zero => simp only [misn_accept_scan, Option.some.injEq] at h; omega
    | succ n =>
      by_cases hm : m.data = none
      · simp only [misn_accept_scan, hm, if_true, Option.some.injEq] at h; omega
      · simp only [misn_accept_scan, hm, if_false] at h
        have := ih n (i + 1) h
        omega

/-- Writing a mission to the slot that the scan of `misn_accept` stops at
keeps a dense table dense. -/
theorem dense_set_scan (c : Mission) (pm : List Mission) (n i k : Nat)
    (h : misn_accept_scan pm n i = some k) (hk : k < i + n) (hd : dense pm = true) :
    dense (pm.set (k - i) c) = true := by
  induction pm generalizing n i with
  | nil => rfl
  | cons m ms ih =>
    cases n with
    | zero => simp only [misn_accept_scan, Option.some.injEq] at h; omega
    | succ n =>
      by_cases hm : m.data = none
      · simp only [misn_accept_scan, hm, if_true, Option.some.injEq] at h
        subst h
        simp only [dense, hm, if_true] at hd
        simp only [Nat.sub_self, List.set_cons_zero, dense, hd]
        split
        · rfl
        · exact dense_of_unused ms hd
      · simp only [misn_accept_scan, hm, if_false] at h
        have hge := misn_accept_scan_ge ms n (i + 1) k h
        have hki : k - i = (k - (i + 1)) + 1 := by omega
        simp only [dense, hm, if_false] at hd
        rw [hki, List.set_cons_succ]
        simp only [dense, hm, if_false]
        exact ih n (i + 1) h (by omega) hd

/-- The density of the table is kept by `misn.accept` when the current
mission is a candidate (the object outside the table). -/
theorem misn_accept_dense_candidate (MISSION_MAX : Nat) (st st1 : MisnState)
    (r : List LuaValue) (hcur : st.cur_mission = .misn)
    (hd : dense st.player_missions = true)
    (h : misn_accept MISSION_MAX st = some (st1, r)) :
    dense st1.player_missions = true := by
  unfold misn_accept at h
  cases hs : misn_accept_scan st.player_missions MISSION_MAX 0 with
  | none => simp [hs] at h
  | some i =>
    simp only [hs, hcur] at h
    by_cases hi : i ≥ MISSION_MAX
    · simp only [hi, if_true, Option.some.injEq, Prod.mk.injEq] at h
      rw [← h.1]
      exact hd
    · simp only [hi, if_false, Option.some.injEq, Prod.mk.injEq] at h
      rw [← h.1]
      have := dense_set_scan st.misn st.player_missions MISSION_MAX 0 i hs (by omega) hd
      simpa using this

/-- Removing a slot keeps a dense table dense. -/
theorem dense_eraseIdx (pm : List Mission) (i : Nat) (hd : dense pm = true) :
    dense (pm.eraseIdx i) = true := by
  induction pm generalizing i with
  | nil => rfl
  | cons m ms ih =>
    by_cases hm : m.data = none
    · simp only [dense, hm, if_true] at hd
      cases i with
      | zero => exact dense_of_unused ms hd
      | succ i =>
        simp only [List.eraseIdx_cons_succ, dense, hm, if_true]
        rw [List.all_eq_true] at hd ⊢
        exact fun x hx => hd x (List.mem_of_mem_eraseIdx hx)
    · simp only [dense, hm, if_false] at hd
      cases i with
      | zero => exact hd
      | succ i =>
        simp only [List.eraseIdx_cons_succ, dense, hm, if_false]
        exact ih i hd

/-- An unused slot after a dense table gives a dense table. -/
theorem dense_append_unused (pm tl : List Mission) (hd : dense pm = true)
    (ht : tl.all (fun x => decide (x.data = none)) = true) : dense (pm ++ tl) = true := by
  induction pm with
  | nil => exact dense_of_unused tl ht
  | cons m ms ih =>
    by_cases hm : m.data = none
    · simp only [dense, hm, if_true] at hd
      show dense (m :: (ms ++ tl)) = true
      simp only [dense, hm, if_true, List.all_append, hd, ht, Bool.and_self]
    · simp only [dense, hm, if_false] at hd
      simp only [List.cons_append, dense, hm, if_false]
      exact ih hd

/-- Slots after a table whose slots are all occupied give a dense table when
they are dense. -/
theorem dense_occupied_append (pm tl : List Mission) (h : ∀ m ∈ pm, m.data ≠ none)
    (ht : dense tl = true) : dense (pm ++ tl) = true := by
  induction pm with
  | nil => exact ht
  | cons m ms ih =>
    have hm : m.data ≠ none := h m (List.mem_cons_self _ _)
    simp only [List.cons_append, dense, hm, if_false]
    exact ih (fun x hx => h x (List.mem_cons_of_mem _ hx))

/-- The density of the table is kept by the removal in `misn_run`, for a
candidate and for a mission of a slot (an occupied slot of a table of
`MISSION_MAX` slots). -/
theorem misn_run_delete_dense (env : MisnEnv) (st st1 : MisnState) (calls : List Call)
    (hlen : st.player_missions.length = env.MISSION_MAX)
    (hd : dense st.player_missions = true)
    (hocc : ∀ i m, st.cur_mission = .slot i → st.player_missions[i]? = some m → m.data ≠ none)
    (h : misn_run_delete env st = some (st1, calls)) :
    dense st1.player_missions = true := by
  by_cases hdel : st.misn_delete ≠ 0
  · cases hcur : st.cur_mission with
    | NULL => simp [misn_run_delete, hdel, hcur] at h
    | misn =>
      simp only [misn_run_delete, hcur] at h
      rw [if_pos hdel] at h
      simp only [Option.some.injEq, Prod.mk.injEq] at h
      rw [← h.1]
      exact hd
    | slot i =>
      cases hm : st.player_missions[i]? with
      | none => simp [misn_run_delete, hdel, hcur, hm] at h
      | some m =>
        rw [misn_run_delete_slot env st i m hlen hm hcur hdel] at h
        simp only [Option.some.injEq, Prod.mk.injEq] at h
        rw [← h.1]
        have hi : i < st.player_missions.length := (List.getElem?_eq_some.mp hm).1
        have hmo : m.data ≠ none := hocc i m hcur hm
        have hbefore : ∀ x ∈ st.player_missions.take i, x.data ≠ none := by
          intro x hx
          obtain ⟨k, hk⟩ := List.mem_iff_getElem?.mp hx
          rw [List.getElem?_take] at hk
          split at hk
          · rename_i hki
            obtain ⟨y, hy, hyo⟩ :=
              dense_occupied_before st.player_missions hd k i m (by omega) hm hmo
            rw [hk] at hy
            cases hy
            exact hyo
          · cases hk
        by_cases hlast : i + 1 < env.MISSION_MAX
        · show dense (mission_memmove (st.player_missions.set i (env.mission_cleanup m)) i (i + 1)
            (env.MISSION_MAX - i - 1)) = true
          rw [mission_memmove_set env st.player_missions i (env.mission_cleanup m) hlen hlast]
          by_cases hl : (st.player_missions.drop (env.MISSION_MAX - 1)).all
              (fun x => decide (x.data = none)) = true
          · exact dense_append_unused _ _ (dense_eraseIdx _ i hd) hl
          · rw [List.all_eq_true] at hl
            push_neg at hl
            obtain ⟨x, hx, hxo⟩ := hl
            have hxo1 : x.data ≠ none := by simpa using hxo
            have hxm : x ∈ st.player_missions := List.mem_of_mem_drop hx
            obtain ⟨j, hj⟩ := List.mem_iff_getElem?.mp hx
            rw [List.getElem?_drop] at hj
            have hall : ∀ y ∈ st.player_missions, y.data ≠ none := by
              intro y hy
              obtain ⟨k, hk⟩ := List.mem_iff_getElem?.mp hy
              have hkl : k < st.player_missions.length := (List.getElem?_eq_some.mp hk).1
              have hjl : env.MISSION_MAX - 1 + j < st.player_missions.length :=
                (List.getElem?_eq_some.mp hj).1
              obtain ⟨z, hz, hzo⟩ := dense_occupied_before st.player_missions hd k
                (env.MISSION_MAX - 1 + j) x (by omega) hj hxo1
              rw [hk] at hz
              cases hz
              exact hzo
            apply dense_of_occupied
            intro y hy
            rcases List.mem_append.mp hy with hy1 | hy1
            · exact hall y (List.mem_of_mem_eraseIdx hy1)
            · exact hall y (List.mem_of_mem_drop hy1)
        · have hz : env.MISSION_MAX - i - 1 = 0 := by omega
          show dense (mission_memmove (st.player_missions.set i (env.mission_cleanup m)) i (i + 1)
            (env.MISSION_MAX - i - 1)) = true
          have hset : mission_memmove (st.player_missions.set i (env.mission_cleanup m)) i (i + 1)
              (env.MISSION_MAX - i - 1)
              = st.player_missions.take i ++ [env.mission_cleanup m] := by
            have h1 : (st.player_missions.set i (env.mission_cleanup m)).take i
                = st.player_missions.take i := by
              apply List.ext_getElem?
              intro k
              rw [List.getElem?_take, List.getElem?_take]
              split
              · rw [List.getElem?_set_ne (by omega)]
              · rfl
            have h2 : (st.player_missions.set i (env.mission_cleanup m)).drop i
                = [env.mission_cleanup m] := by
              have hil : i < (st.player_missions.set i (env.mission_cleanup m)).length := by
                simpa using hi
              rw [List.drop_eq_getElem_cons hil, List.drop_of_length_le (by simp; omega)]
              simp
            rw [hz, mission_memmove, List.take_zero, List.append_nil, h1, Nat.add_zero, h2]
          rw [hset]
          exact dense_occupied_append _ _ hbefore (by simp [dense])
  · simp only [misn_run_delete] at h
    rw [if_neg hdel] at h
    simp only [Option.some.injEq, Prod.mk.injEq] at h
    rw [← h.1]
    exact hd

/-- C22: `misn.accept` called while the current mission is a mission of the
table breaks the density of the table. On a dense table of `MISSION_MAX`
slots with an unused slot, where the current mission is the occupied slot
`j`, the call returns true and the table afterwards is not dense: the mission
is copied to the first unused slot and slot `j` is cleared with `memset`, so
an unused slot comes before an occupied one. -/
theorem misn_accept_active_not_dense (MISSION_MAX : Nat) (st : MisnState) (j : Nat)
    (m : Mission)
    (hlen : st.player_missions.length = MISSION_MAX)
    (hd : dense st.player_missions = true)
    (hfree : ∃ x ∈ st.player_missions, x.data = none)
    (hcur : st.cur_mission = .slot j)
    (hm : st.player_missions[j]? = some m) (hmo : m.data ≠ none) :
    ∃ st1, misn_accept MISSION_MAX st = some (st1, [.boolean true]) ∧
      dense st1.player_missions = false := by
  obtain ⟨k, hk, hscan, ⟨x, hx, hxd⟩, -⟩ := misn_accept_scan_free st.player_missions 0 hfree
  rw [Nat.zero_add] at hscan
  have hjk : j < k := by
    by_contra hge
    obtain ⟨y, hy, hyo⟩ :=
      dense_occupied_before st.player_missions hd k j m (by omega) hm hmo
    rw [hx] at hy
    cases hy
    exact hyo hxd
  have hj : j < st.player_missions.length := (List.getElem?_eq_some.mp hm).1
  rw [hlen] at hk hscan
  refine ⟨{ st with player_missions := (st.player_missions.set k m).set j Mission.zero,
                    cur_mission := .slot k }, ?_, ?_⟩
  · simp only [misn_accept, hscan, hcur, hm, ge_iff_le, Nat.not_le.mpr hk, if_false,
      Nat.ne_of_lt hjk]
  · cases hdense : dense ((st.player_missions.set k m).set j Mission.zero) with
    | false => rfl
    | true =>
      have hkm : ((st.player_missions.set k m).set j Mission.zero)[k]? = some m := by
        rw [List.getElem?_set_ne (Nat.ne_of_lt hjk)]
        simp [hlen, hk]
      obtain ⟨y, hy, hyo⟩ := dense_occupied_before _ hdense j k m (by omega) hkm hmo
      have hjz : ((st.player_missions.set k m).set j Mission.zero)[j]? = some Mission.zero := by
        simp [hj]
      rw [hjz] at hy
      cases hy
      exact absurd rfl hyo

/-- Witness of C22: in the dense table `[X, Y, unused]` the mission X of slot
0 calls `misn.accept()`: the table becomes `[unused, Y, X]`, which is not
dense; `misn_run` of a function of X that calls `misn.accept()` leaves that
table. -/
theorem misn_accept_active_not_dense_witness :
    (∃ st1, misn_accept 3 MisnState.sampleActive = some (st1, [.boolean true]) ∧
      dense st1.player_missions = false) ∧
    dense MisnState.sampleActive.player_missions = true ∧
    misn_accept 3 MisnState.sampleActive
      = some (⟨[Mission.zero, Mission.sample 2 "Y", Mission.sample 1 "X"], Mission.zero,
          .slot 2, 0⟩, [.boolean true]) ∧
    dense [Mission.zero, Mission.sample 2 "Y", Mission.sample 1 "X"] = false ∧
    misn_run LuaConv.decimal MisnEnv.sample3 MisnState.sampleActive (.slot 0) (.accept .ret .ret)
      = some (⟨[Mission.zero, Mission.sample 2 "Y", Mission.sample 1 "X"], Mission.zero,
          .NULL, 0⟩, [], 0) :=
  ⟨misn_accept_active_not_dense 3 MisnState.sampleActive 0 (Mission.sample 1 "X") rfl
      (by decide) ⟨Mission.zero, by decide, rfl⟩ rfl rfl (by decide),
    by decide, by decide, by decide, by decide⟩

/-! ## The header of the shaders -/

/-- The length of the string in an array that holds the characters `s`, none
of them `NUL`, and then a `NUL`. -/
theorem strlen_append_nul (s rest : List Char) (hs : NUL ∉ s) :
    strlen (s ++ NUL :: rest) = some s.length := by
  induction s with
  | nil => simp [strlen]
  | cons c cs ih =>
    have hc : c ≠ NUL := fun h => hs (by simp [h])
    have hcs : NUL ∉ cs := fun h => hs (List.mem_cons_of_mem _ h)
    simp [strlen, hc, ih hcs]

/-- The string of an array that holds the characters `s`, none of them
`NUL`, and then a `NUL`. -/
theorem cstring_append_nul (s rest : List Char) (hs : NUL ∉ s) :
    cstring (s ++ NUL :: rest) = some s := by
  simp [cstring, strlen_append_nul s rest hs]

/-- The array after `strncpy` of a string shorter than the array. -/
theorem strncpy_short (src : List Char) (n : Nat) (h : src.length < n) :
    strncpy src n = src ++ NUL :: List.replicate (n - src.length - 1) NUL := by
  have h1 : n - src.length = (n - src.length - 1) + 1 := by omega
  rw [strncpy, List.take_of_length_le (by omega), h1, List.replicate_succ]
  simp

/-- The array after `strncat` when the characters to append fit the rest of the
array. -/
theorem strncat_fits (s rest src : List Char) (n : Nat) (hs : NUL ∉ s)
    (hfit : (src.take n).length ≤ rest.length) :
    strncat (s ++ NUL :: rest) src n
      = some ((s ++ src.take n) ++ NUL :: rest.drop (src.take n).length) := by
  have hle : s.length + (src.take n ++ [NUL]).length ≤ (s ++ NUL :: rest).length := by
    simp only [List.length_append, List.length_cons, List.length_nil] at *
    omega
  simp only [strncat, strlen_append_nul s rest hs, hle, if_true, Option.some.injEq]
  have h1 : (s ++ NUL :: rest).take s.length = s := by simp
  have h2 : (s ++ NUL :: rest).drop (s.length + (src.take n ++ [NUL]).length)
      = rest.drop (src.take n).length := by
    rw [List.drop_append_eq_append_drop]
    simp only [List.length_append, List.length_cons, List.length_nil]
    rw [List.drop_of_length_le (by omega)]
    have : s.length + ((src.take n).length + (0 + 1)) - s.length = (src.take n).length + 1 := by
      omega
    rw [this]
    simp
  rw [h1, h2]
  simp

/-- The array `prepend` in the four cases, for an array of at least 76
cells. -/
theorem gl_program_vert_frag_prepend_cells (STRMAX : Nat) (h : 76 ≤ STRMAX) (c s : Int) :
    gl_program_vert_frag_prepend STRMAX c s
      = some (((GLSL_VERSION.toList ++ (if c ≠ 0 then GLSL_COLORBLIND.toList else []))
            ++ (if s ≠ 0 then
                  (if c ≠ 0 then GLSL_SUBROUTINE.toList.take 18 else GLSL_SUBROUTINE.toList)
                else []))
          ++ NUL :: List.replicate
              (STRMAX - 15 - (if c ≠ 0 then 43 else 0)
                - (if s ≠ 0 then (if c ≠ 0 then 18 else 39) else 0)) NUL) := by
  have hv : GLSL_VERSION.toList.length = 14 := by decide
  have hvn : NUL ∉ GLSL_VERSION.toList := by decide
  have hcl : GLSL_COLORBLIND.toList.length = 43 := by decide
  have hsl : GLSL_SUBROUTINE.toList.length = 39 := by decide
  have hvcn : NUL ∉ GLSL_VERSION.toList ++ GLSL_COLORBLIND.toList := by decide
  have hn1 : size_t ((14 : Int) - 43) = 18446744073709551587 := by decide
  have hn2 : size_t ((14 : Int) - 39) = 18446744073709551591 := by decide
  have hn3 : size_t ((57 : Int) - 39) = 18 := by decide
  have hp0 : strncpy GLSL_VERSION.toList STRMAX
      = GLSL_VERSION.toList ++ NUL :: List.replicate (STRMAX - 15) NUL := by
    rw [strncpy_short _ _ (by rw [hv]; omega), hv]
    rfl
  have hl0 : strlen (strncpy GLSL_VERSION.toList STRMAX) = some 14 := by
    rw [hp0, strlen_append_nul _ _ hvn, hv]
  have htc : GLSL_COLORBLIND.toList.take 18446744073709551587 = GLSL_COLORBLIND.toList :=
    List.take_of_length_le (by rw [hcl]; omega)
  have hts : GLSL_SUBROUTINE.toList.take 18446744073709551591 = GLSL_SUBROUTINE.toList :=
    List.take_of_length_le (by rw [hsl]; omega)
  have hts18 : (GLSL_SUBROUTINE.toList.take 18).length = 18 := by decide
  unfold gl_program_vert_frag_prepend
  by_cases hc : c ≠ 0
  · have hp1 : strncat (strncpy GLSL_VERSION.toList STRMAX) GLSL_COLORBLIND.toList
          18446744073709551587
        = some ((GLSL_VERSION.toList ++ GLSL_COLORBLIND.toList)
            ++ NUL :: List.replicate (STRMAX - 15 - 43) NUL) := by
      rw [hp0, strncat_fits _ _ _ _ hvn (by rw [htc, hcl]; simp; omega), htc, hcl]
      simp
    have hl1 : strlen ((GLSL_VERSION.toList ++ GLSL_COLORBLIND.toList)
            ++ NUL :: List.replicate (STRMAX - 15 - 43) NUL) = some 57 := by
      rw [strlen_append_nul _ _ hvcn]
      rfl
    by_cases hs : s ≠ 0
    · simp only [if_pos hc, if_pos hs, hl0, hv, hcl, hsl, Nat.cast_ofNat, hn1, hp1, hl1, hn3]
      rw [strncat_fits _ _ _ _ hvcn (by rw [hts18]; simp; omega), hts18]
      simp
    · simp only [if_pos hc, if_neg hs, hl0, hv, hcl, Nat.cast_ofNat, hn1, hp1,
        List.append_nil, Nat.sub_zero]
  · by_cases hs : s ≠ 0
    · simp only [if_neg hc, if_pos hs, hl0, hv, hsl, Nat.cast_ofNat, hn2, hp0,
        List.append_nil, Nat.sub_zero]
      rw [strlen_append_nul _ _ hvn, hv]
      simp only [Nat.cast_ofNat, hn2]
      rw [strncat_fits _ _ _ _ hvn (by rw [hts, hsl]; simp; omega), hts, hsl]
      simp
    · simp only [if_neg hc, if_neg hs, hp0, List.append_nil, Nat.sub_zero]

/-- C24: the header that `gl_program_vert_frag` passes on for both shaders,
for an array `prepend` of at least 76 cells (`STRMAX`). Without the colorblind
mode the header is `GLSL_VERSION`, followed by the whole `GLSL_SUBROUTINE` line
when subroutines are supported; with the colorblind mode and without
subroutines it is `GLSL_VERSION` and the whole `GLSL_COLORBLIND` line. With
the colorblind mode and subroutines the bound of the second `strncat` is
57 - 39 = 18, and the header ends with the first 18 characters of the
`GLSL_SUBROUTINE` line, "#define HAS_GL_ARB": the line is cut short, which the
claim excludes. -/
theorem gl_program_vert_frag_header_lines (STRMAX : Nat) (h : 76 ≤ STRMAX) (c s : Int)
    (hc : c ≠ 0) (hs : s ≠ 0) :
    gl_program_vert_frag_header STRMAX 0 0 = some GLSL_VERSION.toList ∧
    gl_program_vert_frag_header STRMAX 0 s
      = some (GLSL_VERSION.toList ++ GLSL_SUBROUTINE.toList) ∧
    gl_program_vert_frag_header STRMAX c 0
      = some (GLSL_VERSION.toList ++ GLSL_COLORBLIND.toList) ∧
    gl_program_vert_frag_header STRMAX c s
      = some (GLSL_VERSION.toList ++ GLSL_COLORBLIND.toList ++ "#define HAS_GL_ARB".toList) ∧
    gl_program_vert_frag_header STRMAX c s
      ≠ some (GLSL_VERSION.toList ++ GLSL_COLORBLIND.toList ++ GLSL_SUBROUTINE.toList) := by
  have h00 := gl_program_vert_frag_prepend_cells STRMAX h 0 0
  have h0s := gl_program_vert_frag_prepend_cells STRMAX h 0 s
  have hc0 := gl_program_vert_frag_prepend_cells STRMAX h c 0
  have hcs := gl_program_vert_frag_prepend_cells STRMAX h c s
  simp only [hc, hs, ne_eq, not_true_eq_false, not_false_eq_true, if_true, if_false,
    List.append_nil] at h00 h0s hc0 hcs
  have e4 : gl_program_vert_frag_header STRMAX c s
      = some (GLSL_VERSION.toList ++ GLSL_COLORBLIND.toList ++ "#define HAS_GL_ARB".toList) := by
    rw [gl_program_vert_frag_header, hcs]
    exact cstring_append_nul _ _ (by decide)
  refine ⟨?_, ?_, ?_, e4, ?_⟩
  · rw [gl_program_vert_frag_header, h00]
    exact cstring_append_nul _ _ (by decide)
  · rw [gl_program_vert_frag_header, h0s]
    exact cstring_append_nul _ _ (by decide)
  · rw [gl_program_vert_frag_header, hc0]
    exact cstring_append_nul _ _ (by decide)
  · rw [e4]
    decide

/-- Witness of C24: an array of 1024 cells, with `conf.colorblind` and
`GLAD_GL_ARB_shader_subroutine` 0 or 1. -/
theorem gl_program_vert_frag_header_lines_witness :
    gl_program_vert_frag_header 1024 0 0 = some GLSL_VERSION.toList ∧
    gl_program_vert_frag_header 1024 0 1
      = some (GLSL_VERSION.toList ++ GLSL_SUBROUTINE.toList) ∧
    gl_program_vert_frag_header 1024 1 0
      = some (GLSL_VERSION.toList ++ GLSL_COLORBLIND.toList) ∧
    gl_program_vert_frag_header 1024 1 1
      = some (GLSL_VERSION.toList ++ GLSL_COLORBLIND.toList ++ "#define HAS_GL_ARB".toList) ∧
    gl_program_vert_frag_header 1024 1 1
      ≠ some (GLSL_VERSION.toList ++ GLSL_COLORBLIND.toList ++ GLSL_SUBROUTINE.toList) :=
  gl_program_vert_frag_header_lines 1024 (by decide) 1 1 (by decide) (by decide)

/-! ## The log files -/

/-- Reading cells that were all written gives their characters. -/
theorem cells_chars_map_some (l : List Char) : cells_chars (l.map some) = some l := by
  induction l with
  | nil => rfl
  | cons c cs ih => simp [cells_chars, ih]

/-- The string at the cell `pre.length` of an array that holds, from that cell
on, the characters `body`, none of them `NUL`, and a `NUL`. -/
theorem buf_string_body (pre : List (Option Char)) (body : List Char)
    (tail : List (Option Char)) (hb : NUL ∉ body) :
    buf_string (pre ++ body.map some ++ some NUL :: tail) pre.length = some body := by
  induction pre with
  | nil =>
    induction body with
    | nil => simp [buf_string]
    | cons c cs ih =>
      have hc : c ≠ NUL := fun h => hb (by simp [h])
      have hcs : NUL ∉ cs := fun h => hb (List.mem_cons_of_mem _ h)
      have := ih hcs
      simp only [List.nil_append, List.length_nil] at this
      simp [buf_string, hc, this]
  | cons p ps ih =>
    simp only [List.cons_append, List.length_cons, buf_string]
    simpa using ih

/-- A write to the cell after the cells `xs`. -/
theorem buf_write_at (xs : List (Option Char)) (c0 : Option Char)
    (tail : List (Option Char)) (c : Char) :
    buf_write (xs ++ c0 :: tail) xs.length c = some (xs ++ some c :: tail) := by
  simp [buf_write]

/-- Reading `k` bytes from the cell `pre.length` on, where the array holds the
characters `body` from that cell on. -/
theorem buf_read_body (pre : List (Option Char)) (body : List Char)
    (tail : List (Option Char)) (k : Nat) (hk : k ≤ body.length) :
    buf_read (pre ++ body.map some ++ tail) pre.length k = some (body.take k) := by
  have hle : pre.length + k ≤ (pre ++ body.map some ++ tail).length := by
    simp only [List.length_append, List.length_map]
    omega
  simp only [buf_read, hle, if_true]
  rw [List.append_assoc, List.drop_left, List.take_append_of_le_length (by simpa using hk),
    ← List.map_take, cells_chars_map_some]

/-- The array `buf` after the `vsnprintf` of `logprintf` for a message of at
most 2044 characters. -/
theorem buf_vsnprintf_fits (msg : List Char) (h : msg.length ≤ 2044) :
    buf_vsnprintf (List.replicate 2048 none) (2048 - 3) msg
      = [none, none] ++ msg.map some
          ++ some NUL :: List.replicate (2045 - msg.length) none := by
  have ht : msg.take (2048 - 3 - 1) = msg := List.take_of_length_le (by omega)
  simp only [buf_vsnprintf, ht, List.take_replicate, List.drop_replicate, List.length_map,
    List.length_append, List.length_cons, List.length_nil, List.map_append, List.map_cons,
    List.map_nil]
  have h1 : min 2 2048 = 2 := by decide
  have h2 : 2048 - (2 + (msg.length + (0 + 1))) = 2045 - msg.length := by omega
  rw [h1, h2]
  simp [List.replicate]

/-- The value of `n` in `logprintf` for a message of `len` characters. -/
theorem size_t_pred (len : Nat) :
    size_t ((len : Int) - 1) = (len + 18446744073709551615) % 18446744073709551616 := by
  unfold size_t
  norm_num
  omega

/-- The array `buf` after the part of `logprintf` that ends the message: the
message, the newline if it is asked for, and a `NUL`, from cell 2 on. -/
theorem logprintf_newline (pre : List (Option Char)) (hpre : pre.length = 2) (msg : List Char)
    (h : msg.length ≤ 2044) (newline : Int) :
    (if newline ≠ 0 then
        match buf_write (pre ++ msg.map some
            ++ some NUL :: List.replicate (2045 - msg.length) none)
            ((2 + size_t ((msg.length : Int) - 1) + 1) % 2 ^ 64) '\n' with
        | none => none
        | some b => buf_write b ((2 + size_t ((msg.length : Int) - 1) + 2) % 2 ^ 64) NUL
      else buf_write (pre ++ msg.map some
            ++ some NUL :: List.replicate (2045 - msg.length) none)
            ((2 + size_t ((msg.length : Int) - 1) + 1) % 2 ^ 64) NUL)
      = some (pre ++ (if newline ≠ 0 then msg ++ ['\n'] else msg).map some
          ++ some NUL :: List.replicate (2045 - msg.length - (if newline ≠ 0 then 1 else 0))
              none) := by
  have hn := size_t_pred msg.length
  have hi1 : (2 + size_t ((msg.length : Int) - 1) + 1) % 2 ^ 64 = (pre ++ msg.map some).length := by
    rw [hn]
    simp only [List.length_append, List.length_map, hpre]
    omega
  have hi2 : (2 + size_t ((msg.length : Int) - 1) + 2) % 2 ^ 64
      = (pre ++ msg.map some ++ [some '\n']).length := by
    rw [hn]
    simp only [List.length_append, List.length_map, hpre, List.length_cons, List.length_nil]
    omega
  by_cases hnl : newline ≠ 0
  · have hrep : List.replicate (2045 - msg.length) (none : Option Char)
        = none :: List.replicate (2045 - msg.length - 1) none := by
      have : 2045 - msg.length = (2045 - msg.length - 1) + 1 := by omega
      rw [this, List.replicate_succ]
      simp
    rw [if_pos hnl, if_pos hnl, if_pos hnl, hi1, buf_write_at]
    simp only []
    rw [hrep, hi2]
    have e : pre ++ List.map some msg ++ some '\n' :: none
          :: List.replicate (2045 - msg.length - 1) none
        = (pre ++ List.map some msg ++ [some '\n']) ++ none
          :: List.replicate (2045 - msg.length - 1) none := by simp
    rw [e, buf_write_at]
    simp
  · rw [if_neg hnl, if_neg hnl, if_neg hnl, hi1, buf_write_at]
    simp

/-- The calls of `logprintf` on `stdout` for a message of at most 2044
characters: the log file of `stdout`, when it is open, gets the message, and
the newline when `newline` is set. -/
theorem logprintf_stdout (st : LogState) (newline : Int) (msg : List Char)
    (h : msg.length ≤ 2044) (hn : NUL ∉ msg) :
    logprintf st .stdout newline msg
      = some ([.cli_addMessage msg]
          ++ (if st.copying ≠ 0 then
                [.log_append .stdout (if newline ≠ 0 then msg ++ ['\n'] else msg)] else [])
          ++ (match st.logout_file with
              | some f =>
                  [.PHYSFS_writeBytes f (if newline ≠ 0 then msg ++ ['\n'] else msg)]
                    ++ (if newline ≠ 0 then [.PHYSFS_flush f] else [])
              | none => [])
          ++ [.fprintf .stdout (if newline ≠ 0 then msg ++ ['\n'] else msg)]
          ++ (if newline ≠ 0 then [.fflush .stdout] else []),
        ((if newline ≠ 0 then msg ++ ['\n'] else msg).length : Int)) := by
  have hs := size_t_pred msg.length
  have hshown : buf_string ([none, none] ++ msg.map some
      ++ some NUL :: List.replicate (2045 - msg.length) none) 2 = some msg :=
    buf_string_body [none, none] msg _ hn
  have hbuf := logprintf_newline [none, none] rfl msg h newline
  have htn : NUL ∉ (if newline ≠ 0 then msg ++ ['\n'] else msg) := by
    split
    · intro hmem
      rcases List.mem_append.mp hmem with h1 | h1
      · exact hn h1
      · revert h1
        decide
    · exact hn
  have htext := buf_string_body [none, none] (if newline ≠ 0 then msg ++ ['\n'] else msg)
    (List.replicate (2045 - msg.length - (if newline ≠ 0 then 1 else 0)) none) htn
  have hcount : (if newline ≠ 0 then (size_t ((msg.length : Int) - 1) + 2) % 2 ^ 64
      else (size_t ((msg.length : Int) - 1) + 1) % 2 ^ 64)
      = (if newline ≠ 0 then msg ++ ['\n'] else msg).length := by
    rw [hs]
    split
    · simp only [List.length_append, List.length_cons, List.length_nil]
      omega
    · omega
  have hread := buf_read_body [none, none] (if newline ≠ 0 then msg ++ ['\n'] else msg)
    (some NUL :: List.replicate (2045 - msg.length - (if newline ≠ 0 then 1 else 0)) none)
    (if newline ≠ 0 then msg ++ ['\n'] else msg).length (Nat.le_refl _)
  rw [List.take_length] at hread
  simp only [List.length_cons, List.length_nil] at hshown htext hread
  unfold logprintf
  simp only [buf_vsnprintf_fits msg h, if_false, hshown, hbuf, htext, hcount, hread,
    reduceCtorEq]
  cases st.logout_file <;> simp

/-- The calls of `logprintf` on `stderr` for a message of at most 2044
characters (not empty when `newline` is not set): the log file of `stderr`,
when it is open, gets the text that `stdout` would get without its last
byte. -/
theorem logprintf_stderr (st : LogState) (newline : Int) (msg : List Char)
    (h : msg.length ≤ 2044) (hn : NUL ∉ msg) (h1 : newline ≠ 0 ∨ 1 ≤ msg.length) :
    logprintf st .stderr newline msg
      = some ([.cli_addMessage ('#' :: 'r' :: msg)]
          ++ (if st.copying ≠ 0 then
                [.log_append .stderr (if newline ≠ 0 then msg ++ ['\n'] else msg)] else [])
          ++ (match st.logerr_file with
              | some f =>
                  [.PHYSFS_writeBytes f
                      ((if newline ≠ 0 then msg ++ ['\n'] else msg).take
                        ((if newline ≠ 0 then msg ++ ['\n'] else msg).length - 1))]
                    ++ (if newline ≠ 0 then [.PHYSFS_flush f] else [])
              | none => [])
          ++ [.fprintf .stderr (if newline ≠ 0 then msg ++ ['\n'] else msg)]
          ++ (if newline ≠ 0 then [.fflush .stderr] else []),
        ((if newline ≠ 0 then msg ++ ['\n'] else msg).length : Int)) := by
  have hs := size_t_pred msg.length
  have hconsole : (([none, none] ++ msg.map some
        ++ some NUL :: List.replicate (2045 - msg.length) none).set 0 (some '#')).set 1 (some 'r')
      = [some '#', some 'r'] ++ msg.map some
        ++ some NUL :: List.replicate (2045 - msg.length) none := by
    simp
  have hshown : buf_string ([some '#', some 'r'] ++ msg.map some
      ++ some NUL :: List.replicate (2045 - msg.length) none) 0 = some ('#' :: 'r' :: msg) := by
    have hmem : NUL ∉ '#' :: 'r' :: msg := by
      intro hmem
      rcases List.mem_cons.mp hmem with h2 | h2
      · revert h2
        decide
      · rcases List.mem_cons.mp h2 with h3 | h3
        · revert h3
          decide
        · exact hn h3
    have := buf_string_body [] ('#' :: 'r' :: msg)
      (List.replicate (2045 - msg.length) none) hmem
    simpa using this
  have hbuf := logprintf_newline [some '#', some 'r'] rfl msg h newline
  have htn : NUL ∉ (if newline ≠ 0 then msg ++ ['\n'] else msg) := by
    split
    · intro hmem
      rcases List.mem_append.mp hmem with h2 | h2
      · exact hn h2
      · revert h2
        decide
    · exact hn
  have htext := buf_string_body [some '#', some 'r']
    (if newline ≠ 0 then msg ++ ['\n'] else msg)
    (List.replicate (2045 - msg.length - (if newline ≠ 0 then 1 else 0)) none) htn
  have hcount : (if newline ≠ 0 then (size_t ((msg.length : Int) - 1) + 1) % 2 ^ 64
      else size_t ((msg.length : Int) - 1))
      = (if newline ≠ 0 then msg ++ ['\n'] else msg).length - 1 := by
    rw [hs]
    split
    · simp only [List.length_append, List.length_cons, List.length_nil]
      omega
    · rename_i hnl
      have : 1 ≤ msg.length := h1.resolve_left hnl
      omega
  have hread := buf_read_body [some '#', some 'r'] (if newline ≠ 0 then msg ++ ['\n'] else msg)
    (some NUL :: List.replicate (2045 - msg.length - (if newline ≠ 0 then 1 else 0)) none)
    ((if newline ≠ 0 then msg ++ ['\n'] else msg).length - 1) (Nat.sub_le _ _)
  simp only [List.length_cons, List.length_nil] at htext hread
  unfold logprintf
  simp only [buf_vsnprintf_fits msg h, if_true, hconsole, hshown, hbuf, htext, hcount, hread]
  cases st.logerr_file <;> simp

/-- A message without characters on `stderr` without a newline, with the log
file of `stderr` open: `n` is `2^64 - 1`, and `PHYSFS_writeBytes` is asked for
that many bytes of `buf`, a read that leaves the array. -/
theorem logprintf_stderr_short (st : LogState) (f : Nat) (msg : List Char)
    (h0 : msg.length = 0) (hf : st.logerr_file = some f) :
    logprintf st .stderr 0 msg = none := by
  have hn : NUL ∉ msg := by
    rw [List.length_eq_zero.mp h0]
    simp
  have h : msg.length ≤ 2044 := by omega
  have hs := size_t_pred msg.length
  have hconsole : (([none, none] ++ msg.map some
        ++ some NUL :: List.replicate (2045 - msg.length) none).set 0 (some '#')).set 1 (some 'r')
      = [some '#', some 'r'] ++ msg.map some
        ++ some NUL :: List.replicate (2045 - msg.length) none := by
    simp
  have hshown : buf_string ([some '#', some 'r'] ++ msg.map some
      ++ some NUL :: List.replicate (2045 - msg.length) none) 0 = some ('#' :: 'r' :: msg) := by
    have hmem : NUL ∉ '#' :: 'r' :: msg := by
      intro hmem
      rcases List.mem_cons.mp hmem with h2 | h2
      · revert h2
        decide
      · rcases List.mem_cons.mp h2 with h3 | h3
        · revert h3
          decide
        · exact hn h3
    have := buf_string_body [] ('#' :: 'r' :: msg)
      (List.replicate (2045 - msg.length) none) hmem
    simpa using this
  have hbuf := logprintf_newline [some '#', some 'r'] rfl msg h 0
  have htext : buf_string ([some '#', some 'r'] ++ msg.map some
      ++ some NUL :: List.replicate (2045 - msg.length - 0) none) 2 = some msg :=
    buf_string_body [some '#', some 'r'] msg (List.replicate (2045 - msg.length - 0) none) hn
  have hcount : size_t ((msg.length : Int) - 1) = 18446744073709551615 := by
    rw [hs]
    omega
  have hread : buf_read ([some '#', some 'r'] ++ msg.map some
      ++ some NUL :: List.replicate (2045 - msg.length - 0) none) 2 18446744073709551615
      = none := by
    unfold buf_read
    rw [if_neg]
    simp only [List.length_append, List.length_cons, List.length_nil, List.length_map,
      List.length_replicate]
    omega
  simp only [ne_eq, not_true_eq_false, if_false] at hbuf
  rw [hcount] at hbuf
  unfold logprintf
  simp only [buf_vsnprintf_fits msg h, if_true, hconsole, hshown, ne_eq, not_true_eq_false,
    if_false, hbuf, htext, hcount, hread, hf]

/-- The bytes written by two lists of calls. -/
theorem log_bytes_append (a b : List LogCall) :
    log_bytes (a ++ b) = log_bytes a ++ log_bytes b := by
  induction a with
  | nil => rfl
  | cons c cs ih => cases c <;> simp [log_bytes, ih]

/-- C25: `logprintf` with both log files open, for a message of at most 2044
characters (not empty when `newline` is not set). On `stdout` the bytes
written to the log file are the message, followed by the newline when
`newline` is set. On `stderr` the byte count is one less (`newline ? n+1 :
n`), and the bytes written are that text without its last byte: the message
without the newline when `newline` is set, the message without its last
character when it is not. So the two streams do not write the same bytes. -/
theorem logprintf_stderr_bytes (st : LogState) (f g : Nat) (newline : Int) (msg : List Char)
    (h : msg.length ≤ 2044) (hn : NUL ∉ msg) (h1 : newline ≠ 0 ∨ 1 ≤ msg.length)
    (hout : st.logout_file = some f) (herr : st.logerr_file = some g) :
    (∃ calls r, logprintf st .stdout newline msg = some (calls, r) ∧
      log_bytes calls = (if newline ≠ 0 then msg ++ ['\n'] else msg)) ∧
    (∃ calls r, logprintf st .stderr newline msg = some (calls, r) ∧
      log_bytes calls = (if newline ≠ 0 then msg else msg.take (msg.length - 1)) ∧
      log_bytes calls ≠ (if newline ≠ 0 then msg ++ ['\n'] else msg)) := by
  refine ⟨⟨_, _, logprintf_stdout st newline msg h hn, ?_⟩,
    ⟨_, _, logprintf_stderr st newline msg h hn h1, ?_⟩⟩
  · rw [hout]
    by_cases hc : st.copying ≠ 0 <;> by_cases hnl : newline ≠ 0 <;>
      simp [log_bytes_append, log_bytes, hc, hnl]
  · rw [herr]
    have hb : log_bytes ([.cli_addMessage ('#' :: 'r' :: msg)]
          ++ (if st.copying ≠ 0 then
                [.log_append .stderr (if newline ≠ 0 then msg ++ ['\n'] else msg)] else [])
          ++ ([.PHYSFS_writeBytes g
                      ((if newline ≠ 0 then msg ++ ['\n'] else msg).take
                        ((if newline ≠ 0 then msg ++ ['\n'] else msg).length - 1))]
                    ++ (if newline ≠ 0 then [.PHYSFS_flush g] else []))
          ++ [.fprintf .stderr (if newline ≠ 0 then msg ++ ['\n'] else msg)]
          ++ (if newline ≠ 0 then [.fflush .stderr] else []))
        = (if newline ≠ 0 then msg else msg.take (msg.length - 1)) := by
      by_cases hc : st.copying ≠ 0 <;> by_cases hnl : newline ≠ 0 <;>
        simp [log_bytes_append, log_bytes, hc, hnl]
    refine ⟨hb, ?_⟩
    rw [hb]
    intro heq
    have hl := congrArg List.length heq
    by_cases hnl : newline ≠ 0
    · simp only [if_pos hnl, List.length_append, List.length_cons, List.length_nil] at hl
      omega
    · have : 1 ≤ msg.length := h1.resolve_left hnl
      simp only [if_neg hnl, List.length_take] at hl
      omega

/-- Witness of C25: the message "boom" with both log files open. With
`newline` set the log file of `stdout` gets "boom" and the newline, the log
file of `stderr` gets "boom" without the newline; with `newline` not set they
get "boom" and "boo". -/
theorem logprintf_stderr_bytes_witness :
    ((∃ calls r, logprintf LogState.sample .stdout 1 "boom".toList = some (calls, r) ∧
        log_bytes calls = (if (1 : Int) ≠ 0 then "boom".toList ++ ['\n'] else "boom".toList)) ∧
      (∃ calls r, logprintf LogState.sample .stderr 1 "boom".toList = some (calls, r) ∧
        log_bytes calls
          = (if (1 : Int) ≠ 0 then "boom".toList
              else "boom".toList.take ("boom".toList.length - 1)) ∧
        log_bytes calls
          ≠ (if (1 : Int) ≠ 0 then "boom".toList ++ ['\n'] else "boom".toList))) ∧
    logprintf LogState.sample .stdout 1 "boom".toList
      = some ([.cli_addMessage "boom".toList, .PHYSFS_writeBytes 1 "boom\n".toList,
               .PHYSFS_flush 1, .fprintf .stdout "boom\n".toList, .fflush .stdout], 5) ∧
    logprintf LogState.sample .stderr 1 "boom".toList
      = some ([.cli_addMessage "#rboom".toList, .PHYSFS_writeBytes 2 "boom".toList,
               .PHYSFS_flush 2, .fprintf .stderr "boom\n".toList, .fflush .stderr], 5) ∧
    logprintf LogState.sample .stdout 0 "boom".toList
      = some ([.cli_addMessage "boom".toList, .PHYSFS_writeBytes 1 "boom".toList,
               .fprintf .stdout "boom".toList], 4) ∧
    logprintf LogState.sample .stderr 0 "boom".toList
      = some ([.cli_addMessage "#rboom".toList, .PHYSFS_writeBytes 2 "boo".toList,
               .fprintf .stderr "boom".toList], 4) ∧
    logprintf LogState.sample .stderr 0 [] = none :=
  ⟨logprintf_stderr_bytes LogState.sample 1 2 1 "boom".toList (by decide) (by decide)
      (Or.inl (by decide)) rfl rfl,
   (logprintf_stdout LogState.sample 1 "boom".toList (by decide) (by decide)).trans (by decide),
   (logprintf_stderr LogState.sample 1 "boom".toList (by decide) (by decide)
      (Or.inl (by decide))).trans (by decide),
   (logprintf_stdout LogState.sample 0 "boom".toList (by decide) (by decide)).trans (by decide),
   (logprintf_stderr LogState.sample 0 "boom".toList (by decide) (by decide)
      (Or.inr (by decide))).trans (by decide),
   logprintf_stderr_short LogState.sample 2 [] rfl rfl⟩

end Naev
